import Mathlib

/-!
Verification development for the recurrent-computation engine of RETURNN
(`returnn/tf/layers/rec.py`): a shallow embedding of the template-construction
algorithm, the loop-hoisting partition (`_SubnetworkRecCell._move_outside_loop`),
the step-loop driver (`cond` / `body` of the `tf.while_loop`), the accumulator
machinery (`OutputToAccumulate`) and the beam-search source combination
(`ChoiceLayer._prune_and_combine_sources` / `_get_combined_labels`),
together with proofs of the specified properties.

The unbounded `while` loops of the source are embedded as structurally
recursive functions over an explicit step budget ("fuel"), instantiated with a
budget that is provably sufficient (adequacy lemmas below show the loops reach
their stopping condition within the budget, so the embedding computes exactly
what the source loops compute).
-/

namespace Rec

/-- `'/' in layer.name` (rec.py:2826, 2868), character-wise. -/
def isSubLayerName (s : String) : Bool :=
  s.data.contains '/'

/-- `layer.name.split('/')[0]` (rec.py:2827, 2869): the prefix before the
first `'/'` (the whole string if there is none). -/
def rootName (s : String) : String :=
  ⟨s.data.takeWhile (fun ch => !(ch = '/'))⟩

/-- `name.startswith("data:")` (rec.py:2804). -/
def startsWithDataColon (s : String) : Bool :=
  List.isPrefixOf "data:".data s.data

/-- Template layer as seen by `_move_outside_loop`
(`_TemplateLayer`, rec.py:3221ff).  `deps` is `self.dependencies`
(all dependency edges, current-frame and previous-frame alike;
see `add_dependency`, rec.py:3396-3409, which appends every added layer to
`self.dependencies` and additionally to `cur_frame_dependencies` or
`prev_frame_dependencies` according to `is_prev_time_frame`).
Layer objects are identified by their unique name
(`self.layer_data_templates[layer.name] is layer`, rec.py:2806). -/
structure TLayer where
  name : String
  deps : List String
  curDeps : List String
  prevDeps : List String
  searchChoices : Bool
  collocateWith : List String
deriving DecidableEq, Repr

/-- The cell's template map `self.layer_data_templates`:
association list keyed by layer name, plus `self.parent_net.search_flag`. -/
structure Cell where
  templates : List (String × TLayer)
  searchFlag : Bool
deriving DecidableEq, Repr

/-- Lookup in `layer_data_templates`. -/
def Cell.tmpl (c : Cell) (n : String) : Option TLayer :=
  (c.templates.find? (fun p => p.1 = n)).map (·.2)

/-- The loop of `output_can_move_out` (rec.py:2832-2838): `layer.output` is
used by some other layer still in the loop, or collocation forces it to stay. -/
def outputBlocked (inLoop : List TLayer) (layer : TLayer) : Bool :=
  inLoop.any (fun other =>
    other.deps.contains layer.name || layer.collocateWith.contains other.name)

/-- The loop of `input_can_move_out` (rec.py:2874-2880): `layer` depends on
some other layer from this sub-network still in the loop, or collocation. -/
def inputBlocked (inLoop : List TLayer) (layer : TLayer) : Bool :=
  inLoop.any (fun other =>
    layer.deps.contains other.name || layer.collocateWith.contains other.name)

/-- `output_can_move_out` (rec.py:2815-2838).  The sub-layer case recurses on
the root layer; a root name contains no `'/'`, so the recursion depth is 1
and we inline it.  A missing root layer is a fatal assertion in the source
(rec.py:2829); we model it as "cannot move" (the well-formedness hypotheses of
the theorems exclude that case). -/
def outputCanMoveOut (c : Cell) (inLoop : List TLayer) (layer : TLayer) : Bool :=
  if layer.name = "end" then false
  else if c.searchFlag && layer.searchChoices then false
  else if isSubLayerName layer.name then
    match c.tmpl (rootName layer.name) with
    | some root =>
      if root.name = "end" then false
      else if c.searchFlag && root.searchChoices then false
      else if isSubLayerName root.name then false
      else !(outputBlocked inLoop root)
    | none => false
  else !(outputBlocked inLoop layer)

/-- `input_can_move_out` (rec.py:2857-2880), same inlining of the depth-1
sub-layer recursion. -/
def inputCanMoveOut (c : Cell) (inLoop : List TLayer) (layer : TLayer) : Bool :=
  if layer.name = ":i" ∨ layer.name = "end" then false
  else if c.searchFlag && layer.searchChoices then false
  else if isSubLayerName layer.name then
    match c.tmpl (rootName layer.name) with
    | some root =>
      if root.name = ":i" ∨ root.name = "end" then false
      else if c.searchFlag && root.searchChoices then false
      else if isSubLayerName root.name then false
      else !(inputBlocked inLoop root)
    | none => false
  else !(inputBlocked inLoop layer)

/-- State during `_move_outside_loop`: `layers_in_loop`,
`input_layers_moved_out`, `output_layers_moved_out` (rec.py:2795, 2812-2813). -/
structure MoveState where
  inLoop : List TLayer
  inputMovedOut : List String
  outputMovedOut : List String
deriving DecidableEq, Repr

/-- `layers_in_loop.remove(layer)` (Python removes the first equal element;
layer identity is name identity, rec.py:2806). -/
def removeLayer (inLoop : List TLayer) (layer : TLayer) : List TLayer :=
  inLoop.eraseP (fun x => x.name = layer.name)

/-- `output_move_out` (rec.py:2849-2855). -/
def outputMoveOut (st : MoveState) (layer : TLayer) : MoveState :=
  { st with inLoop := removeLayer st.inLoop layer
            outputMovedOut := st.outputMovedOut ++ [layer.name] }

/-- `input_move_out` (rec.py:2891-2897). -/
def inputMoveOut (st : MoveState) (layer : TLayer) : MoveState :=
  { st with inLoop := removeLayer st.inLoop layer
            inputMovedOut := st.inputMovedOut ++ [layer.name] }

/-- `find_output_layer_to_move_out` (rec.py:2840-2847). -/
def findOutputLayer (c : Cell) (st : MoveState) : Option TLayer :=
  st.inLoop.find? (outputCanMoveOut c st.inLoop)

/-- `find_input_layer_to_move_out` (rec.py:2882-2889). -/
def findInputLayer (c : Cell) (st : MoveState) : Option TLayer :=
  st.inLoop.find? (inputCanMoveOut c st.inLoop)

/-- First phase of `_move_outside_loop` (rec.py:2899-2905): move out
output layers while possible.  Fuel-indexed; `moveOutputsLoop_fix` below shows
the canonical fuel `st.inLoop.length` always reaches the loop's exit
condition, so this computes the same result as the unbounded source loop. -/
def moveOutputsLoopF (c : Cell) : Nat → MoveState → MoveState
  | 0, st => st
  | fuel + 1, st =>
    match findOutputLayer c st with
    | some l => moveOutputsLoopF c fuel (outputMoveOut st l)
    | none => st

def moveOutputsLoop (c : Cell) (st : MoveState) : MoveState :=
  moveOutputsLoopF c st.inLoop.length st

/-- Second phase of `_move_outside_loop` (rec.py:2906-2915): per round, try an
output-side move, then an input-side move; stop when a round moved nothing.
Fuel-indexed as above; see `moveBothLoop_fix`. -/
def moveBothLoopF (c : Cell) : Nat → MoveState → MoveState
  | 0, st => st
  | fuel + 1, st =>
    match findOutputLayer c st with
    | some l =>
      let st1 := outputMoveOut st l
      match findInputLayer c st1 with
      | some l2 => moveBothLoopF c fuel (inputMoveOut st1 l2)
      | none => moveBothLoopF c fuel st1
    | none =>
      match findInputLayer c st with
      | some l2 => moveBothLoopF c fuel (inputMoveOut st l2)
      | none => st

def moveBothLoop (c : Cell) (st : MoveState) : MoveState :=
  moveBothLoopF c st.inLoop.length st

/-- The `visit` DFS of `_move_outside_loop` (rec.py:2797-2810), in worklist
form (the head of the worklist is expanded depth-first, exactly the order of
the Python recursion).  It skips dependency names that are not templates of
this cell ("real layer from base net or so") and the special `"data"` /
`"data:..."` names, and records each visited template name once.
Python checks membership / appends layer objects; by the invariant
`self.layer_data_templates[layer.name] is layer` (rec.py:2806) this is the
same as tracking names.  Fuel-indexed; see `visitGoF_fuel_irrel`. -/
def visitGoF (c : Cell) : Nat → List String → List String → List String
  | _, acc, [] => acc
  | 0, acc, _ :: _ => acc
  | fuel + 1, acc, d :: rest =>
    match c.tmpl d with
    | none => visitGoF c fuel acc rest
    | some l =>
      if d = "data" ∨ startsWithDataColon d then visitGoF c fuel acc rest
      else if acc.contains d then visitGoF c fuel acc rest
      else visitGoF c fuel (acc ++ [d]) (l.deps ++ rest)

/-- Upper bound on the number of dependency-list entries of any single
template layer. -/
def maxDepsLen (c : Cell) : Nat :=
  (c.templates.map (fun p => p.2.deps.length)).foldr max 0

/-- Sufficient fuel for `visitGoF` from state `(acc, w)`: each worklist entry
costs one step, and each not-yet-visited template can be expanded at most
once, adding at most `maxDepsLen c` entries. -/
def visitBound (c : Cell) (acc w : List String) : Nat :=
  w.length +
    ((c.templates.map Prod.fst).filter (fun n => !(acc.contains n))).length
      * (maxDepsLen c + 1)

/-- The names visited from `needed_outputs` (initial `layers_in_loop`,
rec.py:2810). -/
def visitNames (c : Cell) (needed : List String) : List String :=
  visitGoF c (visitBound c [] needed) [] needed

/-- The initial `layers_in_loop` list as layer objects. -/
def initialInLoop (c : Cell) (needed : List String) : List TLayer :=
  (visitNames c needed).filterMap c.tmpl

/-- `_SubnetworkRecCell._move_outside_loop` (rec.py:2783-2917): collect the
layers reachable from `needed_outputs`, then phase 1 (output moves only) and
phase 2 (alternating both move kinds) until a fixed point.  At the end,
`layers_in_loop` is what remains, `input_layers_moved_out` and
`output_layers_moved_out` hold the hoisted names (rec.py:2917). -/
def moveOutsideLoop (c : Cell) (needed : List String) : MoveState :=
  let st1 := moveOutputsLoop c
    { inLoop := initialInLoop c needed, inputMovedOut := [], outputMovedOut := [] }
  moveBothLoop c st1

/-! ### Adequacy of the fuel bounds -/

/-! ### Well-formedness of a template cell

These are invariants of template construction (rec.py:1168-1317):
`layer_data_templates` is keyed by the layer's own name; dependencies recorded
via `add_dependency` satisfy `dependencies ⊇ cur_frame_dependencies ∪
prev_frame_dependencies` and `dependencies ⊆ cur ∪ prev` (rec.py:3396-3409);
sub-layer templates get no own dependencies ("the dependency graph continues
via the root layer", rec.py:1227-1229); and a layer that depends on a
sub-layer also depends on its root (the root is resolved first and registered
as a dependency, rec.py:1217-1230). -/

def nodupB : List String → Bool
  | [] => true
  | x :: xs => !(xs.contains x) && nodupB xs

def Cell.WFb (c : Cell) : Bool :=
  c.templates.all (fun p =>
    decide (p.2.name = p.1) &&
    p.2.curDeps.all (fun d => p.2.deps.contains d) &&
    p.2.prevDeps.all (fun d => p.2.deps.contains d) &&
    p.2.deps.all (fun d => p.2.curDeps.contains d || p.2.prevDeps.contains d) &&
    (!isSubLayerName p.1 || p.2.deps.isEmpty) &&
    p.2.deps.all (fun d => !isSubLayerName d || p.2.deps.contains (rootName d)))
  && nodupB (c.templates.map Prod.fst)

/-! ### Soundness invariants of the move loops -/

/-- The layer whose in-loop usage `output_can_move_out` actually checks
(the layer itself, or its root for a sub-layer), `none` if one of the
unconditional exclusions applies. -/
def outputMoveTarget (c : Cell) (layer : TLayer) : Option TLayer :=
  if layer.name = "end" then none
  else if c.searchFlag && layer.searchChoices then none
  else if isSubLayerName layer.name then
    match c.tmpl (rootName layer.name) with
    | some root =>
      if root.name = "end" then none
      else if c.searchFlag && root.searchChoices then none
      else if isSubLayerName root.name then none
      else some root
    | none => none
  else some layer

/-- Same for `input_can_move_out`. -/
def inputMoveTarget (c : Cell) (layer : TLayer) : Option TLayer :=
  if layer.name = ":i" ∨ layer.name = "end" then none
  else if c.searchFlag && layer.searchChoices then none
  else if isSubLayerName layer.name then
    match c.tmpl (rootName layer.name) with
    | some root =>
      if root.name = ":i" ∨ root.name = "end" then none
      else if c.searchFlag && root.searchChoices then none
      else if isSubLayerName root.name then none
      else some root
    | none => none
  else some layer

/-- Every layer recorded in `layers_in_loop` is the template stored under its
name. -/
def loopConsistent (c : Cell) (st : MoveState) : Prop :=
  ∀ l ∈ st.inLoop, c.tmpl l.name = some l

/-- Every name recorded as moved out was movable, and remains movable with
respect to the current (smaller) `layers_in_loop`. -/
def movedInv (c : Cell) (st : MoveState) : Prop :=
  (∀ n ∈ st.inputMovedOut, ∃ l, c.tmpl n = some l ∧ inputCanMoveOut c st.inLoop l = true) ∧
  (∀ n ∈ st.outputMovedOut, ∃ l, c.tmpl n = some l ∧ outputCanMoveOut c st.inLoop l = true)

/-! ### The multiset of names is preserved by the move loops -/

/-- All names tracked by the state, in its three disjoint places. -/
def allNames (st : MoveState) : List String :=
  st.inLoop.map (·.name) ++ st.inputMovedOut ++ st.outputMovedOut




/-! ### Concrete cells used as witnesses / counterexamples -/

/-- A typical recurrent cell: `encoder` is step-invariant (input-side
hoistable), `output` is self-recurrent via `prev:output`, `end` reads
`output`, `post` reads `output` but nothing in the loop needs it
(output-side hoistable). -/
def cellW : Cell :=
  { templates :=
      [("encoder", { name := "encoder", deps := [], curDeps := [], prevDeps := [],
                     searchChoices := false, collocateWith := [] }),
       ("output", { name := "output", deps := ["encoder", "output"],
                    curDeps := ["encoder"], prevDeps := ["output"],
                    searchChoices := false, collocateWith := [] }),
       ("end", { name := "end", deps := ["output"], curDeps := ["output"],
                 prevDeps := [], searchChoices := false, collocateWith := [] }),
       ("post", { name := "post", deps := ["output"], curDeps := ["output"],
                  prevDeps := [], searchChoices := false, collocateWith := [] })],
    searchFlag := false }

/-- Cell refuting C4 as stated: layer `a`'s only dependency still in the loop
is the previous-step dependency on `b`; `c` consumes `a`'s current value, so
`a` cannot be output-moved.  The code nevertheless keeps `a` in the loop,
because `input_can_move_out` checks `layer.dependencies` (all edges), not only
the current-step edges. -/
def cellC4 : Cell :=
  { templates :=
      [("a", { name := "a", deps := ["b"], curDeps := [], prevDeps := ["b"],
               searchChoices := false, collocateWith := [] }),
       ("b", { name := "b", deps := ["b"], curDeps := [], prevDeps := ["b"],
               searchChoices := false, collocateWith := [] }),
       ("c", { name := "c", deps := ["a", "c"], curDeps := ["a"], prevDeps := ["c"],
               searchChoices := false, collocateWith := [] })],
    searchFlag := false }

/-- A searching cell: `output` carries active search choices, `end` exists. -/
def cellS : Cell :=
  { templates :=
      [("output", { name := "output", deps := ["output"], curDeps := [],
                    prevDeps := ["output"], searchChoices := true, collocateWith := [] }),
       ("end", { name := "end", deps := ["output"], curDeps := ["output"],
                 prevDeps := [], searchChoices := false, collocateWith := [] })],
    searchFlag := true }

/-! ### Step-loop driver: `cond` and the `end`-flag update of `body`
(rec.py:2180-2370) -/

/-- The continuation condition `cond` of the `tf.while_loop`
(rec.py:2340-2370).  `res` starts as `True`; if `max_seq_len` is known it is
conjoined with `i < max_seq_len`, otherwise with `i < rec_layer._max_seq_len`
when that user option is set; the assertion `res is not True`
(rec.py:2365) is a fatal graph-construction error when neither cap exists;
finally, with a dynamic length (`seq_len_info`), `res` is conjoined with
"any hypothesis has not ended". -/
def loopCond (maxSeqLen userMaxSeqLen : Option Nat) (seqLenInfo : Option (List Bool))
    (i : Nat) : Except String Bool :=
  let capRes : Option Bool :=
    match maxSeqLen with
    | some m => some (decide (i < m))
    | none =>
      match userMaxSeqLen with
      | some m => some (decide (i < m))
      | none => none
  match capRes with
  | none => Except.error "specify max_seq_len"
  | some b =>
    match seqLenInfo with
    | some endFlag => Except.ok (b && endFlag.any (fun e => !e))
    | none => Except.ok b

/-- The `end`-flag update of `body` in the non-search case (rec.py:2312):
`end_flag = tf.logical_or(end_flag, self.net.layers["end"].output.placeholder)`,
elementwise over the hypotheses. -/
def stepEndFlag (endFlag endOut : List Bool) : List Bool :=
  List.zipWith (fun a b => a || b) endFlag endOut

/-- The per-hypothesis `dyn_seq_len` update of `body` in the non-search case
(rec.py:2314-2318): `dyn_seq_len += tf.where(end_flag, 0, 1)` with the freshly
updated `end_flag`. -/
def stepDynSeqLen (endFlagNew : List Bool) (dyn : List Nat) : List Nat :=
  List.zipWith (fun d stop => if stop then d else d + 1) dyn endFlagNew

/-- The end flags after `j` executed steps, given the per-step output of the
`end` layer (`endSignal i` = value of the `end` layer at step `i`). -/
def flagsAt (endSignal : Nat → List Bool) (flags0 : List Bool) : Nat → List Bool
  | 0 => flags0
  | j + 1 => stepEndFlag (flagsAt endSignal flags0 j) (endSignal j)

/-- The dynamic-length `tf.while_loop` (rec.py:2372ff) in the
unknown-length case: step `i` runs iff `cond` holds, i.e. iff
`i < cap && any hypothesis not ended` (see `loopCond_dynamic_user`);
`body` or-accumulates the `end` signal.  Returns the step counter and the
final flags.  Fuel-indexed with canonical fuel `cap`, which suffices because
`cond` requires `i < cap`. -/
def runStepsGo (cap : Nat) (endSignal : Nat → List Bool) :
    Nat → Nat → List Bool → Nat × List Bool
  | 0, i, flags => (i, flags)
  | fuel + 1, i, flags =>
    if decide (i < cap) && flags.any (fun e => !e) then
      runStepsGo cap endSignal fuel (i + 1) (stepEndFlag flags (endSignal i))
    else (i, flags)

def runLoop (cap : Nat) (endSignal : Nat → List Bool) (flags0 : List Bool) :
    Nat × List Bool :=
  runStepsGo cap endSignal cap 0 flags0

/-! ### Sequence-length determination in `get_output` (rec.py:1848-1877) -/

/-- The length-determination logic of `_SubnetworkRecCell.get_output`
(rec.py:1848-1877), which runs at graph-construction time, before the step
loop is built.  `outSizePlaceholder` models
`rec_layer.output.size_placeholder[0]`, `outputSearchChoices` whether the
output template has search choices inside this rec layer, `sizeTarget` the
`size_target` option's sequence lengths, `endInTemplates` whether a layer
named `"end"` was declared, `inputSeqLen` the input sequence's lengths.
Returns `(fixed_seq_len?, have_known_seq_len)`, or the fatal assertion
`"length is not defined. provide an 'end' layer"` (rec.py:1863). -/
def computeSeqLenInfo {α : Type} (outSizePlaceholder : Option α)
    (outputSearchChoices : Bool) (sizeTarget : Option α) (endInTemplates : Bool)
    (inputSeqLen : Option α) : Except String (Option α × Bool) :=
  let fixedSeqLen : Option α :=
    if outSizePlaceholder.isSome && !outputSearchChoices then outSizePlaceholder
    else if sizeTarget.isSome then sizeTarget
    else none
  if fixedSeqLen.isNone && !endInTemplates then
    match inputSeqLen with
    | none => Except.error "length is not defined. provide an end layer"
    | some l => Except.ok (some l, true)
  else
    match fixedSeqLen with
    | some l => Except.ok (some l, true)
    | none => Except.ok (none, false)

/-! ### `OutputToAccumulate` (rec.py:1753-1796) and the accumulator writes of
`body` (rec.py:2321-2324) -/

/-- An output registered for accumulation.  `get` models the getter: the
while-loop body is traced exactly once at graph-construction time, so whether
the getter returns a value (`some`, a per-step value function) or `None` is
fixed for the whole loop run. -/
structure OutputToAccumulate (α : Type) where
  name : String
  get : Option (Nat → α)
  get_returned_none : Option Bool

/-- A TensorArray modelled as its log of writes (index, value). -/
structure TensorArray (α : Type) where
  writes : List (Nat × α)

/-- `OutputToAccumulate.write_to_tensor_array` (rec.py:1771-1785), called once
while tracing the loop body: asserts it was not called before, records
whether the getter produced a value, and returns the per-step write operation
the traced graph will contain (`none`: the tensor array is passed through
unchanged; `some f`: `ta.write(index=i, value=f i)` at every executed step). -/
def writeToTensorArray {α : Type} (out : OutputToAccumulate α) :
    Except String (OutputToAccumulate α × Option (Nat → α)) :=
  match out.get_returned_none with
  | some _ => Except.error "assert self.get_returned_none is None"
  | none =>
    match out.get with
    | none => Except.ok ({ out with get_returned_none := some true }, none)
    | some f => Except.ok ({ out with get_returned_none := some false }, some f)

/-- Executing the traced write operation for `steps` loop iterations
(rec.py:2322-2324: `acc_tas = [out.write_to_tensor_array(acc_ta, index=i) ...]`
inside the while loop). -/
def runAccum {α : Type} (writeOp : Option (Nat → α)) (steps : Nat)
    (ta : TensorArray α) : TensorArray α :=
  match writeOp with
  | none => ta
  | some f => { writes := ta.writes ++ (List.range steps).map (fun i => (i, f i)) }

/-- `OutputToAccumulate.get_final_tensor_array` (rec.py:1787-1796): `None` if
the getter produced nothing (the buffer was never written), otherwise the
tensor array. -/
def getFinalTensorArray {α : Type} (out : OutputToAccumulate α)
    (ta : TensorArray α) : Except String (Option (TensorArray α)) :=
  match out.get_returned_none with
  | none => Except.error "assert self.get_returned_none is not None"
  | some true => Except.ok none
  | some false => Except.ok (some ta)

/-! ### `_TemplateLayer.init` (rec.py:3266-3288) -/

/-- The state of a `_TemplateLayer` as far as `init` touches it, plus `deps`
(which `init` does not touch).  The descriptor type is abstracted as `α`. -/
structure TemplateState (α : Type) where
  isPrevTimeFrame : Bool
  isDataTemplate : Bool
  layerClass : String
  output : α
  layerClassType : Option String
  isOutputLayer : Option Bool
  hasSearchChoices : Bool
  searchBeamSize : Option Nat
  collocateWith : List String
  isInitialized : Bool
  deps : List String
deriving DecidableEq, Repr

/-- `_TemplateLayer.init` (rec.py:3266-3288).  There is no check of
`is_initialized`: every call overwrites the descriptor (`output`), the layer
class and the config-derived fields in place, and sets `is_initialized` last.
The only failing path is the assertion that `template_type` is `"prev"` or
`"template"` (rec.py:3276).  `search_choices` is set only when
`_has_search_choices()` holds (search flag on, choice-class layer with a beam
size, rec.py:3285-3286, 3454-3466); otherwise the previous value remains. -/
def templateInit {α : Type} (searchFlag : Bool) (st : TemplateState α) (output : α)
    (layerClass : String) (classIsChoice : Bool) (beam : Option Nat)
    (templateType : String) (isOutputLayer : Option Bool)
    (collocate : Option (List String)) : Except String (TemplateState α) :=
  if templateType = "prev" ∨ templateType = "template" then
    Except.ok { st with
      isPrevTimeFrame := decide (templateType = "prev")
      isDataTemplate := decide (templateType = "template")
      layerClass := ":" ++ templateType ++ ":" ++ layerClass
      output := output
      layerClassType := some layerClass
      isOutputLayer := isOutputLayer
      hasSearchChoices :=
        if searchFlag && classIsChoice && beam.isSome then true else st.hasSearchChoices
      searchBeamSize :=
        if searchFlag && classIsChoice && beam.isSome then beam else st.searchBeamSize
      collocateWith := collocate.getD []
      isInitialized := true }
  else Except.error "assert self.is_prev_time_frame or self.is_data_template"

/-- An uninitialized template (as built by `_TemplateLayer.__init__`,
rec.py:3228-3254), with one recorded dependency for illustration. -/
def c8s0 : TemplateState Nat :=
  TemplateState.mk false false ":uninitialized-template" 0 none none false none [] false ["x"]

def c8once : Except String (TemplateState Nat) :=
  templateInit false c8s0 7 "linear" false none "template" none none

def c8twice : Except String (TemplateState Nat) :=
  match c8once with
  | Except.ok st1 => templateInit false st1 9 "copy" false none "template" none none
  | Except.error e => Except.error e

/-! ### `GetLayer.__call__` construction attempts (rec.py:1250-1317) -/

inductive AttemptResult | success | failure
deriving DecidableEq, Repr

inductive FullResult | success | depLoopError | otherError
deriving DecidableEq, Repr

inductive CallOutcome | returned | raisedDepLoop | raisedOther
deriving DecidableEq, Repr

/-- Which of the construction passes were run, and how the call ended. -/
structure CallTrace where
  triedDefaultOptimistic : Bool
  triedAllowUninitialized : Bool
  triedFullRecursion : Bool
  outcome : CallOutcome
deriving DecidableEq, Repr

/-- The attempt-sequencing of `GetLayer.__call__` (rec.py:1250-1317), with the
results of the three possible `construct_layer` invocations supplied as
oracles: `res1` for the default optimistic pass (uninitialized templates
disallowed), `res2` for the retry permitting them (rec.py:1262-1281;
exceptions there are collected, not raised), `fullRes` for the full recursive
pass (rec.py:1282-1297).  The candidate list is built only when
`iterative_testing` is on and the name is not on the construction stack
(rec.py:1264); `default_success` is set only when the FIRST (default) variant
succeeds (rec.py:1277-1278), so the full recursive pass runs whenever the
first optimistic attempt did not succeed -- even if the second did.  A
`NetworkConstructionDependencyLoopException` of the full pass is suppressed
iff the layer is already (provisionally) initialized, iterative testing is on
and no reconstruction is forced (rec.py:1291-1295); any other exception is
re-raised. -/
def getLayerCall (iterativeTesting reconstruct nameOnStack layerInitialized : Bool)
    (res1 res2 : AttemptResult) (fullRes : FullResult) : CallTrace :=
  let haveCandidates := iterativeTesting && !nameOnStack
  let fullOutcome : CallOutcome :=
    match fullRes with
    | FullResult.success => CallOutcome.returned
    | FullResult.depLoopError =>
      if layerInitialized && iterativeTesting && !reconstruct then CallOutcome.returned
      else CallOutcome.raisedDepLoop
    | FullResult.otherError => CallOutcome.raisedOther
  if haveCandidates then
    match res1 with
    | AttemptResult.success =>
      { triedDefaultOptimistic := true, triedAllowUninitialized := false,
        triedFullRecursion := false, outcome := CallOutcome.returned }
    | AttemptResult.failure =>
      { triedDefaultOptimistic := true, triedAllowUninitialized := true,
        triedFullRecursion := true, outcome := fullOutcome }
  else
    { triedDefaultOptimistic := false, triedAllowUninitialized := false,
      triedFullRecursion := true, outcome := fullOutcome }

/-! ### The iterative-refinement loop of `_construct_template`
(rec.py:1343-1373) -/

/-- A template layer as seen by the refinement loop: whether it is
initialized, and an abstract descriptor compare key
(`layer.output.get_compare_key()`). -/
structure CLayer where
  name : String
  isInitialized : Bool
  outputKey : Nat
deriving DecidableEq, Repr

inductive RefineResult
  /-- `partially_finished` became empty: the `while` condition ends the loop. -/
  | finishedAll
  /-- A full pass made no reduction and no descriptor change: break
  (rec.py:1356-1362), with every remaining node asserted initialized. -/
  | stoppedNoProgress (pf : List CLayer)
  /-- The assert at rec.py:1358 fires: some remaining node is uninitialized. -/
  | assertInitFailed (pf : List CLayer)
  /-- The iteration budget `loop_limit` is exhausted: the assert at
  rec.py:1364 fires. -/
  | budgetExhausted (pf : List CLayer)
  /-- Modeling artifact: the fuel ran out (provably unreachable with the
  canonical fuel, see `refineLoopF_no_outOfFuel`). -/
  | outOfFuel
deriving DecidableEq, Repr

/-- The reconstruction loop of `_construct_template` (rec.py:1343-1373).
One iteration runs `direct_get_layer.construct` over every layer of the
current `partially_finished` list (rec.py:1348-1352); that inner sweep may
re-initialize layers, remove finished ones and discover new ones, and is
abstracted as the oracle `sweep`, returning the new list and whether any
descriptor compare key changed (`recent_changes ≠ []`).  If the list shrank,
continue without touching the budget (rec.py:1353-1355); if neither shrink
nor change, assert all remaining layers initialized and break
(rec.py:1356-1362); otherwise decrement `loop_limit` and abort fatally when
it would go negative (rec.py:1363-1364). -/
def refineLoopF (sweep : List CLayer → List CLayer × Bool) :
    Nat → Nat → List CLayer → RefineResult
  | 0, _, _ => RefineResult.outOfFuel
  | fuel + 1, loopLimit, pf =>
    if pf.isEmpty then RefineResult.finishedAll
    else
      let oldLen := pf.length
      let res := sweep pf
      if res.1.length < oldLen then refineLoopF sweep fuel loopLimit res.1
      else if res.2 = false then
        if res.1.all (fun l => l.isInitialized) then RefineResult.stoppedNoProgress res.1
        else RefineResult.assertInitFailed res.1
      else if loopLimit = 0 then RefineResult.budgetExhausted res.1
      else refineLoopF sweep fuel (loopLimit - 1) res.1

/-- Sufficient fuel when every sweep result has length at most `UB`. -/
def refineFuel (UB : Nat) (pf : List CLayer) : Nat :=
  (pf.length + 1) * (UB + 1) + pf.length + 1

/-- The whole loop with its iteration budget
`loop_limit = len(ConstructCtx.partially_finished)` (rec.py:1343). -/
def constructTemplateRefine (UB : Nat) (sweep : List CLayer → List CLayer × Bool)
    (pf0 : List CLayer) : RefineResult :=
  refineLoopF sweep (refineFuel UB pf0) pf0.length pf0

/-! ### `ChoiceLayer._prune_and_combine_sources` / `_get_combined_labels`
(rec.py:4679-4773), two-source instance, per incoming hypothesis -/

/-- Index of the running maximum, ties keeping the earlier element:
the accumulator semantics of `tf.nn.top_k`'s stable selection. -/
def selectTopGo : Nat → List (Nat × Int) → List (Nat × Int)
  | 0, _ => []
  | _, [] => []
  | fuel + 1, p :: rest =>
    let best := (p :: rest).foldl (fun acc q => if acc.2 < q.2 then q else acc) p
    best :: selectTopGo fuel ((p :: rest).eraseP (fun q => q == best))

/-- `tf.nn.top_k(scores_in, k)` (rec.py:4702): the `k` largest scores, sorted
descending, ties broken by lower index, together with their indices
("labels"). -/
def topK (scores : List Int) (k : Nat) : List Int × List Nat :=
  let pairs := (List.range scores.length).zip scores
  let sorted := selectTopGo scores.length pairs
  ((sorted.take k).map (fun p => p.2), (sorted.take k).map (fun p => p.1))

/-- The broadcast sum of the two pruned score lists, flattened row-major
(source 0 on the outer axis, source 1 on the inner axis), exactly the
`tf.reshape(combined_pruned_scores, [batch_dim, combined_scores_dim])` layout
per batch row (rec.py:4708-4730). -/
def combineScores2 (ps1 ps2 : List Int) : List Int :=
  ps1.flatMap (fun a => ps2.map (fun b => a + b))

/-- `_prune_and_combine_sources` for two sources, per batch row
(rec.py:4679-4732): prune each source with `top_k`, then form all
`b1*b2` score sums.  Returns (combined flat scores, combined_scores_dim,
pruned labels of source 0, pruned labels of source 1). -/
def pruneAndCombineSources2 (scores1 scores2 : List Int) (b1 b2 : Nat) :
    List Int × Nat × List Nat × List Nat :=
  let t1 := topK scores1 b1
  let t2 := topK scores2 b2
  (combineScores2 t1.1 t2.1, 1 * b1 * b2, t1.2, t2.2)

/-- `_get_combined_labels` for two sources, for one outgoing hypothesis
(rec.py:4735-4773): select each source's pruned-label row by the hypothesis's
source beam (`select_src_beams`), then unravel the flat combined id
(innermost = last source: `ids2 = c % b2; c //= b2; ids1 = c % b1`) and index
the pruned label lists. -/
def getCombinedLabels2 (combinedId srcBeam : Nat)
    (prunedLabelRows1 prunedLabelRows2 : List (List Nat)) (b1 b2 : Nat) :
    Option Nat × Option Nat :=
  let sel1 := prunedLabelRows1.getD srcBeam []
  let sel2 := prunedLabelRows2.getD srcBeam []
  let ids2 := combinedId % b2
  let ids1 := (combinedId / b2) % b1
  (sel1.get? ids1, sel2.get? ids2)

/-- Concrete accumulated output for the C10 witness. -/
def c10out : OutputToAccumulate Nat :=
  { name := "output_output", get := some (fun i => i * 10), get_returned_none := none }

def c10ta : TensorArray Nat := { writes := [] }

/-- Concrete partially-finished layer for the C3 witness. -/
def c3l1 : CLayer := { name := "layer1", isInitialized := true, outputKey := 0 }

/-! ## Theorems -/

theorem removeLayer_length {inLoop : List TLayer} {layer : TLayer}
    (h : layer ∈ inLoop) :
    (removeLayer inLoop layer).length + 1 = inLoop.length :=
  List.length_eraseP_add_one h (by simp)

theorem moveOutputsLoopF_fix (c : Cell) :
    ∀ (fuel : Nat) (st : MoveState), st.inLoop.length ≤ fuel →
      findOutputLayer c (moveOutputsLoopF c fuel st) = none := by
  intro fuel
  induction fuel with
  | zero =>
    intro st hst
    have : st.inLoop = [] := List.length_eq_zero.1 (Nat.le_zero.1 hst)
    simp [moveOutputsLoopF, findOutputLayer, this]
  | succ n ih =>
    intro st hst
    simp only [moveOutputsLoopF]
    cases hf : findOutputLayer c st with
    | none => exact hf
    | some l =>
      apply ih
      have hmem : l ∈ st.inLoop := List.mem_of_find?_eq_some hf
      have := removeLayer_length hmem
      simp only [outputMoveOut, removeLayer] at *
      omega

theorem moveBothLoopF_fix (c : Cell) :
    ∀ (fuel : Nat) (st : MoveState), st.inLoop.length ≤ fuel →
      findOutputLayer c (moveBothLoopF c fuel st) = none ∧
      findInputLayer c (moveBothLoopF c fuel st) = none := by
  intro fuel
  induction fuel with
  | zero =>
    intro st hst
    have : st.inLoop = [] := List.length_eq_zero.1 (Nat.le_zero.1 hst)
    simp [moveBothLoopF, findOutputLayer, findInputLayer, this]
  | succ n ih =>
    intro st hst
    simp only [moveBothLoopF]
    cases hf : findOutputLayer c st with
    | some l =>
      have hmem : l ∈ st.inLoop := List.mem_of_find?_eq_some hf
      have hlen := removeLayer_length hmem
      cases hf2 : findInputLayer c (outputMoveOut st l) with
      | some l2 =>
        simp only [hf2]
        apply ih
        have hmem2 : l2 ∈ (outputMoveOut st l).inLoop := List.mem_of_find?_eq_some hf2
        have hlen2 := removeLayer_length hmem2
        simp only [outputMoveOut, inputMoveOut, removeLayer] at *
        omega
      | none =>
        simp only [hf2]
        apply ih
        simp only [outputMoveOut, removeLayer] at *
        omega
    | none =>
      cases hf2 : findInputLayer c st with
      | some l2 =>
        simp only [hf2]
        apply ih
        have hmem2 : l2 ∈ st.inLoop := List.mem_of_find?_eq_some hf2
        have hlen2 := removeLayer_length hmem2
        simp only [inputMoveOut, removeLayer] at *
        omega
      | none =>
        simp only [hf2]
        exact ⟨hf, trivial⟩

/-- Strict decrease of the unvisited-template count when a new template name
is appended to the visited list. -/
theorem filter_append_lt {names acc : List String} {d : String}
    (hd : d ∈ names) (hnd : acc.contains d = false) :
    (names.filter (fun n => !((acc ++ [d]).contains n))).length
      < (names.filter (fun n => !(acc.contains n))).length := by
  have hmono : List.Sublist (names.filter (fun n => !((acc ++ [d]).contains n)))
      (names.filter (fun n => !(acc.contains n))) := by
    apply List.monotone_filter_right
    intro a ha
    simp only [List.contains, List.elem_eq_mem, List.mem_append, Bool.not_eq_true',
      decide_eq_false_iff_not] at ha ⊢
    intro hmem
    exact ha (Or.inl hmem)
  have hle := hmono.length_le
  rcases Nat.lt_or_ge (names.filter (fun n => !((acc ++ [d]).contains n))).length
      (names.filter (fun n => !(acc.contains n))).length with h | h
  · exact h
  · exfalso
    have heq := hmono.eq_of_length (Nat.le_antisymm hle h)
    have hd1 : d ∈ names.filter (fun n => !(acc.contains n)) := by
      simp only [List.mem_filter, Bool.not_eq_true']
      exact ⟨hd, hnd⟩
    rw [← heq] at hd1
    simp only [List.mem_filter, List.contains, List.elem_eq_mem, List.mem_append,
      Bool.not_eq_true', decide_eq_false_iff_not] at hd1
    exact hd1.2 (Or.inr (List.mem_singleton_self d))

/-- Under well-formedness, the layer found for a name carries that name. -/
theorem tmpl_name_mem_keys {c : Cell} {d : String} {l : TLayer}
    (h : c.tmpl d = some l) : d ∈ c.templates.map Prod.fst := by
  unfold Cell.tmpl at h
  rcases Option.map_eq_some'.1 h with ⟨p, hp, _⟩
  have hpeq := List.find?_some hp
  have hpm := List.mem_of_find?_eq_some hp
  simp only [decide_eq_true_eq] at hpeq
  rw [← hpeq]
  exact List.mem_map_of_mem Prod.fst hpm

theorem le_foldr_max {x : Nat} {xs : List Nat} (h : x ∈ xs) : x ≤ xs.foldr max 0 := by
  induction xs with
  | nil => cases h
  | cons y ys ih =>
    rcases List.mem_cons.1 h with h1 | h1
    · subst h1
      exact Nat.le_max_left _ _
    · exact le_trans (ih h1) (Nat.le_max_right _ _)

theorem tmpl_deps_le_maxDepsLen {c : Cell} {d : String} {l : TLayer}
    (h : c.tmpl d = some l) : l.deps.length ≤ maxDepsLen c := by
  unfold Cell.tmpl at h
  rcases Option.map_eq_some'.1 h with ⟨p, hp, hpl⟩
  have hpm : p ∈ c.templates := List.mem_of_find?_eq_some hp
  have hmem : l.deps.length ∈ c.templates.map (fun q => q.2.deps.length) := by
    rw [← hpl]
    exact List.mem_map_of_mem _ hpm
  exact le_foldr_max hmem

/-- `visitGoF`'s result does not depend on the fuel, once the fuel is at least
`visitBound`: the worklist is always fully processed within the bound. -/
theorem visitGoF_fuel_irrel (c : Cell) :
    ∀ (fuel₁ fuel₂ : Nat) (acc w : List String),
      visitBound c acc w ≤ fuel₁ → visitBound c acc w ≤ fuel₂ →
      visitGoF c fuel₁ acc w = visitGoF c fuel₂ acc w := by
  intro fuel₁
  induction fuel₁ using Nat.strong_induction_on with
  | _ fuel₁ ih =>
    intro fuel₂ acc w h1 h2
    match w with
    | [] =>
      cases fuel₁ <;> cases fuel₂ <;> simp [visitGoF]
    | d :: rest =>
      have hw1 : 1 ≤ visitBound c acc (d :: rest) := by
        unfold visitBound; simp; omega
      cases fuel₁ with
      | zero => omega
      | succ f1 =>
      cases fuel₂ with
      | zero => omega
      | succ f2 =>
        simp only [visitGoF]
        have hconsume : visitBound c acc rest + 1 = visitBound c acc (d :: rest) := by
          unfold visitBound
          simp [List.length_cons]
          omega
        cases htm : c.tmpl d with
        | none =>
          exact ih f1 (by omega) f2 acc rest (by omega) (by omega)
        | some l =>
          by_cases hdata : d = "data" ∨ startsWithDataColon d
          · simp only [hdata, if_true]
            exact ih f1 (by omega) f2 acc rest (by omega) (by omega)
          · simp only [hdata, if_false]
            by_cases hacc : acc.contains d
            · simp only [hacc, if_true]
              exact ih f1 (by omega) f2 acc rest (by omega) (by omega)
            · simp only [hacc, if_false]
              have hkey : d ∈ c.templates.map Prod.fst := tmpl_name_mem_keys htm
              have hflt := @filter_append_lt (c.templates.map Prod.fst)
                acc d hkey (by simpa using hacc)
              have hdeps := tmpl_deps_le_maxDepsLen htm
              have hexp : visitBound c (acc ++ [d]) (l.deps ++ rest) + 1
                  ≤ visitBound c acc (d :: rest) := by
                unfold visitBound at *
                simp only [List.length_append, List.length_cons] at *
                have : ((c.templates.map Prod.fst).filter
                    (fun n => !((acc ++ [d]).contains n))).length + 1
                    ≤ ((c.templates.map Prod.fst).filter
                      (fun n => !(acc.contains n))).length := hflt
                nlinarith
              exact ih f1 (by omega) f2 (acc ++ [d]) (l.deps ++ rest) (by omega) (by omega)

theorem nodupB_nodup : ∀ {l : List String}, nodupB l = true → l.Nodup := by
  intro l
  induction l with
  | nil => intro; exact List.nodup_nil
  | cons x xs ih =>
    intro h
    simp only [nodupB, Bool.and_eq_true, Bool.not_eq_true'] at h
    refine List.nodup_cons.2 ⟨?_, ih h.2⟩
    intro hmem
    exact absurd hmem (by simpa using h.1)

theorem wf_entry {c : Cell} (hwf : c.WFb = true) {p : String × TLayer}
    (hp : p ∈ c.templates) :
    p.2.name = p.1 ∧
    (∀ d ∈ p.2.curDeps, d ∈ p.2.deps) ∧
    (∀ d ∈ p.2.prevDeps, d ∈ p.2.deps) ∧
    (∀ d ∈ p.2.deps, d ∈ p.2.curDeps ∨ d ∈ p.2.prevDeps) ∧
    (isSubLayerName p.1 = true → p.2.deps = []) ∧
    (∀ d ∈ p.2.deps, isSubLayerName d = true → rootName d ∈ p.2.deps) := by
  unfold Cell.WFb at hwf
  rw [Bool.and_eq_true, List.all_eq_true] at hwf
  have h := hwf.1 p hp
  simp only [Bool.and_eq_true, decide_eq_true_eq, List.all_eq_true, List.contains,
    List.elem_eq_mem, Bool.or_eq_true, Bool.not_eq_true', List.isEmpty_iff] at h
  obtain ⟨⟨⟨⟨⟨h1, h2⟩, h3⟩, h4⟩, h5⟩, h6⟩ := h
  refine ⟨h1, fun d hd => by simpa using h2 d hd, fun d hd => by simpa using h3 d hd,
    fun d hd => by simpa using h4 d hd, ?_, ?_⟩
  · intro hsub
    rcases h5 with h5 | h5
    · rw [hsub] at h5; cases h5
    · exact h5
  · intro d hd hsub
    rcases h6 d hd with h6 | h6
    · rw [hsub] at h6; cases h6
    · simpa using h6

theorem wf_keys_nodup {c : Cell} (hwf : c.WFb = true) :
    (c.templates.map Prod.fst).Nodup := by
  unfold Cell.WFb at hwf
  rw [Bool.and_eq_true] at hwf
  exact nodupB_nodup hwf.2

theorem tmpl_mem {c : Cell} {n : String} {l : TLayer} (h : c.tmpl n = some l) :
    (n, l) ∈ c.templates := by
  unfold Cell.tmpl at h
  rcases Option.map_eq_some'.1 h with ⟨p, hp, hpl⟩
  have hpeq := List.find?_some hp
  have hpm := List.mem_of_find?_eq_some hp
  simp only [decide_eq_true_eq] at hpeq
  rcases p with ⟨k, v⟩
  simp only at hpl hpeq
  rw [hpeq, hpl] at hpm
  exact hpm

theorem tmpl_name {c : Cell} (hwf : c.WFb = true) {n : String} {l : TLayer}
    (h : c.tmpl n = some l) : l.name = n :=
  (wf_entry hwf (tmpl_mem h)).1

/-- Under well-formedness, looking up a stored layer's name returns it. -/
theorem tmpl_of_mem {c : Cell} (hwf : c.WFb = true) {p : String × TLayer}
    (hp : p ∈ c.templates) : c.tmpl p.1 = some p.2 := by
  unfold Cell.tmpl
  have hnd := wf_keys_nodup hwf
  cases hfind : c.templates.find? (fun q => q.1 = p.1) with
  | none =>
    exfalso
    have := List.find?_eq_none.1 hfind p hp
    simp at this
  | some q =>
    have hqm := List.mem_of_find?_eq_some hfind
    have hqeq := List.find?_some hfind
    simp only [decide_eq_true_eq] at hqeq
    have hqp : q = p := List.inj_on_of_nodup_map hnd hqm hp hqeq
    rw [hqp]
    rfl

theorem any_of_sublist {α : Type} {p : α → Bool} {l' l : List α}
    (hs : List.Sublist l' l) (h : l'.any p = true) : l.any p = true := by
  rw [List.any_eq_true] at h ⊢
  rcases h with ⟨x, hx, hpx⟩
  exact ⟨x, hs.mem hx, hpx⟩

theorem outputCanMoveOut_eq (c : Cell) (inLoop : List TLayer) (layer : TLayer) :
    outputCanMoveOut c inLoop layer =
      match outputMoveTarget c layer with
      | none => false
      | some t => !(outputBlocked inLoop t) := by
  unfold outputCanMoveOut outputMoveTarget
  split_ifs with h1 h2 h3 <;> try rfl
  cases c.tmpl (rootName layer.name) with
  | none => rfl
  | some root =>
    dsimp only
    split_ifs <;> rfl

theorem inputCanMoveOut_eq (c : Cell) (inLoop : List TLayer) (layer : TLayer) :
    inputCanMoveOut c inLoop layer =
      match inputMoveTarget c layer with
      | none => false
      | some t => !(inputBlocked inLoop t) := by
  unfold inputCanMoveOut inputMoveTarget
  split_ifs with h1 h2 h3 <;> try rfl
  cases c.tmpl (rootName layer.name) with
  | none => rfl
  | some root =>
    dsimp only
    split_ifs <;> rfl

theorem outputCanMoveOut_mono {c : Cell} {inLoop' inLoop : List TLayer} {l : TLayer}
    (hs : List.Sublist inLoop' inLoop)
    (h : outputCanMoveOut c inLoop l = true) : outputCanMoveOut c inLoop' l = true := by
  rw [outputCanMoveOut_eq] at h ⊢
  cases ht : outputMoveTarget c l with
  | none => rw [ht] at h; cases h
  | some t =>
    rw [ht] at h
    dsimp only at h ⊢
    simp only [Bool.not_eq_true'] at h ⊢
    cases hb : outputBlocked inLoop' t
    · rfl
    · exact absurd (any_of_sublist hs hb) (by simp [outputBlocked] at h ⊢; exact h)

theorem inputCanMoveOut_mono {c : Cell} {inLoop' inLoop : List TLayer} {l : TLayer}
    (hs : List.Sublist inLoop' inLoop)
    (h : inputCanMoveOut c inLoop l = true) : inputCanMoveOut c inLoop' l = true := by
  rw [inputCanMoveOut_eq] at h ⊢
  cases ht : inputMoveTarget c l with
  | none => rw [ht] at h; cases h
  | some t =>
    rw [ht] at h
    dsimp only at h ⊢
    simp only [Bool.not_eq_true'] at h ⊢
    cases hb : inputBlocked inLoop' t
    · rfl
    · exact absurd (any_of_sublist hs hb) (by simp [inputBlocked] at h ⊢; exact h)

theorem removeLayer_sublist (inLoop : List TLayer) (l : TLayer) :
    List.Sublist (removeLayer inLoop l) inLoop :=
  List.eraseP_sublist _

theorem loopConsistent_of_sublist {c : Cell} {st st' : MoveState}
    (hsub : List.Sublist st'.inLoop st.inLoop) (h : loopConsistent c st) :
    loopConsistent c st' :=
  fun l hl => h l (hsub.mem hl)

theorem movedInv_outputMoveOut {c : Cell} {st : MoveState} {l : TLayer}
    (hfind : findOutputLayer c st = some l)
    (hcons : loopConsistent c st) (hinv : movedInv c st) :
    movedInv c (outputMoveOut st l) := by
  have hmem : l ∈ st.inLoop := List.mem_of_find?_eq_some hfind
  have hpred : outputCanMoveOut c st.inLoop l = true := List.find?_some hfind
  have hsub : List.Sublist (outputMoveOut st l).inLoop st.inLoop :=
    removeLayer_sublist _ _
  constructor
  · intro n hn
    rcases hinv.1 n hn with ⟨ln, hln, hpn⟩
    exact ⟨ln, hln, inputCanMoveOut_mono hsub hpn⟩
  · intro n hn
    simp only [outputMoveOut, List.mem_append, List.mem_singleton] at hn
    rcases hn with hn | hn
    · rcases hinv.2 n hn with ⟨ln, hln, hpn⟩
      exact ⟨ln, hln, outputCanMoveOut_mono hsub hpn⟩
    · subst hn
      exact ⟨l, hcons l hmem, outputCanMoveOut_mono hsub hpred⟩

theorem movedInv_inputMoveOut {c : Cell} {st : MoveState} {l : TLayer}
    (hfind : findInputLayer c st = some l)
    (hcons : loopConsistent c st) (hinv : movedInv c st) :
    movedInv c (inputMoveOut st l) := by
  have hmem : l ∈ st.inLoop := List.mem_of_find?_eq_some hfind
  have hpred : inputCanMoveOut c st.inLoop l = true := List.find?_some hfind
  have hsub : List.Sublist (inputMoveOut st l).inLoop st.inLoop :=
    removeLayer_sublist _ _
  constructor
  · intro n hn
    simp only [inputMoveOut, List.mem_append, List.mem_singleton] at hn
    rcases hn with hn | hn
    · rcases hinv.1 n hn with ⟨ln, hln, hpn⟩
      exact ⟨ln, hln, inputCanMoveOut_mono hsub hpn⟩
    · subst hn
      exact ⟨l, hcons l hmem, inputCanMoveOut_mono hsub hpred⟩
  · intro n hn
    rcases hinv.2 n hn with ⟨ln, hln, hpn⟩
    exact ⟨ln, hln, outputCanMoveOut_mono hsub hpn⟩

theorem moveOutputsLoopF_inv (c : Cell) :
    ∀ (fuel : Nat) (st : MoveState), loopConsistent c st → movedInv c st →
      loopConsistent c (moveOutputsLoopF c fuel st) ∧
      movedInv c (moveOutputsLoopF c fuel st) := by
  intro fuel
  induction fuel with
  | zero => exact fun st hc hm => ⟨hc, hm⟩
  | succ n ih =>
    intro st hc hm
    simp only [moveOutputsLoopF]
    cases hf : findOutputLayer c st with
    | none => exact ⟨hc, hm⟩
    | some l =>
      exact ih _ (loopConsistent_of_sublist (removeLayer_sublist _ _) hc)
        (movedInv_outputMoveOut hf hc hm)

theorem moveBothLoopF_inv (c : Cell) :
    ∀ (fuel : Nat) (st : MoveState), loopConsistent c st → movedInv c st →
      loopConsistent c (moveBothLoopF c fuel st) ∧
      movedInv c (moveBothLoopF c fuel st) := by
  intro fuel
  induction fuel with
  | zero => exact fun st hc hm => ⟨hc, hm⟩
  | succ n ih =>
    intro st hc hm
    simp only [moveBothLoopF]
    cases hf : findOutputLayer c st with
    | some l =>
      have hc1 : loopConsistent c (outputMoveOut st l) :=
        loopConsistent_of_sublist (removeLayer_sublist _ _) hc
      have hm1 : movedInv c (outputMoveOut st l) := movedInv_outputMoveOut hf hc hm
      cases hf2 : findInputLayer c (outputMoveOut st l) with
      | some l2 =>
        simp only [hf2]
        exact ih _ (loopConsistent_of_sublist (removeLayer_sublist _ _) hc1)
          (movedInv_inputMoveOut hf2 hc1 hm1)
      | none =>
        simp only [hf2]
        exact ih _ hc1 hm1
    | none =>
      cases hf2 : findInputLayer c st with
      | some l2 =>
        simp only [hf2]
        exact ih _ (loopConsistent_of_sublist (removeLayer_sublist _ _) hc)
          (movedInv_inputMoveOut hf2 hc hm)
      | none =>
        simp only [hf2]
        exact ⟨hc, hm⟩

theorem map_removeLayer (inLoop : List TLayer) (l : TLayer) :
    (removeLayer inLoop l).map (·.name) = (inLoop.map (·.name)).erase l.name := by
  unfold removeLayer
  induction inLoop with
  | nil => rfl
  | cons x xs ih =>
    by_cases hx : x.name = l.name
    · simp [List.eraseP_cons, hx, List.erase_cons]
    · simp [List.eraseP_cons, hx, List.erase_cons, ih]

theorem perm_cons_head {M I O : List String} {n : String} (hn : n ∈ M) :
    List.Perm (n :: (M.erase n ++ I ++ O)) (M ++ I ++ O) := by
  have h1 : List.Perm M (n :: M.erase n) := List.perm_cons_erase hn
  have h2 : List.Perm ((n :: M.erase n) ++ I ++ O) (M ++ I ++ O) :=
    List.Perm.append_right O (List.Perm.append_right I h1.symm)
  simpa using h2

theorem perm_move_aux {M I O : List String} {n : String}
    (hn : n ∈ M) : List.Perm (M.erase n ++ I ++ (O ++ [n])) (M ++ I ++ O) := by
  have h2 : List.Perm (M.erase n ++ I ++ (O ++ [n])) (n :: (M.erase n ++ I ++ O)) := by
    have he : M.erase n ++ I ++ (O ++ [n]) = (M.erase n ++ I ++ O) ++ [n] := by
      simp [List.append_assoc]
    rw [he]
    exact List.perm_append_singleton _ _
  exact h2.trans (perm_cons_head hn)

theorem perm_move_aux2 {M I O : List String} {n : String}
    (hn : n ∈ M) : List.Perm (M.erase n ++ (I ++ [n]) ++ O) (M ++ I ++ O) := by
  have h2 : List.Perm (M.erase n ++ (I ++ [n]) ++ O) (n :: (M.erase n ++ I ++ O)) := by
    have he : M.erase n ++ (I ++ [n]) ++ O = (M.erase n ++ I) ++ (n :: O) := by
      simp [List.append_assoc]
    rw [he]
    have := @List.perm_middle String n (M.erase n ++ I) O
    simpa [List.append_assoc] using this
  exact h2.trans (perm_cons_head hn)

theorem allNames_outputMoveOut {st : MoveState} {l : TLayer} (h : l ∈ st.inLoop) :
    List.Perm (allNames (outputMoveOut st l)) (allNames st) := by
  have hn : l.name ∈ st.inLoop.map (·.name) := List.mem_map_of_mem _ h
  unfold allNames outputMoveOut
  simp only [map_removeLayer]
  exact perm_move_aux hn

theorem allNames_inputMoveOut {st : MoveState} {l : TLayer} (h : l ∈ st.inLoop) :
    List.Perm (allNames (inputMoveOut st l)) (allNames st) := by
  have hn : l.name ∈ st.inLoop.map (·.name) := List.mem_map_of_mem _ h
  unfold allNames inputMoveOut
  simp only [map_removeLayer]
  exact perm_move_aux2 hn

theorem moveOutputsLoopF_perm (c : Cell) :
    ∀ (fuel : Nat) (st : MoveState),
      List.Perm (allNames (moveOutputsLoopF c fuel st)) (allNames st) := by
  intro fuel
  induction fuel with
  | zero => exact fun st => List.Perm.refl _
  | succ n ih =>
    intro st
    simp only [moveOutputsLoopF]
    cases hf : findOutputLayer c st with
    | none => exact List.Perm.refl _
    | some l =>
      exact (ih _).trans (allNames_outputMoveOut (List.mem_of_find?_eq_some hf))

theorem moveBothLoopF_perm (c : Cell) :
    ∀ (fuel : Nat) (st : MoveState),
      List.Perm (allNames (moveBothLoopF c fuel st)) (allNames st) := by
  intro fuel
  induction fuel with
  | zero => exact fun st => List.Perm.refl _
  | succ n ih =>
    intro st
    simp only [moveBothLoopF]
    cases hf : findOutputLayer c st with
    | some l =>
      have hp1 : List.Perm (allNames (outputMoveOut st l)) (allNames st) :=
        allNames_outputMoveOut (List.mem_of_find?_eq_some hf)
      cases hf2 : findInputLayer c (outputMoveOut st l) with
      | some l2 =>
        simp only [hf2]
        exact ((ih _).trans
          (allNames_inputMoveOut (List.mem_of_find?_eq_some hf2))).trans hp1
      | none =>
        simp only [hf2]
        exact (ih _).trans hp1
    | none =>
      cases hf2 : findInputLayer c st with
      | some l2 =>
        simp only [hf2]
        exact (ih _).trans (allNames_inputMoveOut (List.mem_of_find?_eq_some hf2))
      | none =>
        simp only [hf2]
        exact List.Perm.refl _

theorem visitGoF_sound (c : Cell) :
    ∀ (fuel : Nat) (acc w : List String) (x : String), x ∈ visitGoF c fuel acc w →
      x ∈ acc ∨ ∃ l, c.tmpl x = some l := by
  intro fuel
  induction fuel with
  | zero =>
    intro acc w x hx
    cases w <;> exact Or.inl (by simpa [visitGoF] using hx)
  | succ n ih =>
    intro acc w x hx
    cases w with
    | nil => exact Or.inl (by simpa [visitGoF] using hx)
    | cons d rest =>
      simp only [visitGoF] at hx
      cases htm : c.tmpl d with
      | none =>
        rw [htm] at hx
        exact ih acc rest x hx
      | some l =>
        rw [htm] at hx
        dsimp only at hx
        by_cases hdata : d = "data" ∨ startsWithDataColon d
        · rw [if_pos hdata] at hx
          exact ih acc rest x hx
        · rw [if_neg hdata] at hx
          by_cases hacc : acc.contains d
          · rw [if_pos hacc] at hx
            exact ih acc rest x hx
          · rw [if_neg hacc] at hx
            rcases ih _ _ x hx with hmem | hsome
            · rcases List.mem_append.1 hmem with hmem | hmem
              · exact Or.inl hmem
              · rw [List.mem_singleton] at hmem
                subst hmem
                exact Or.inr ⟨l, htm⟩
            · exact Or.inr hsome

theorem visitGoF_nodup (c : Cell) :
    ∀ (fuel : Nat) (acc w : List String), acc.Nodup → (visitGoF c fuel acc w).Nodup := by
  intro fuel
  induction fuel with
  | zero =>
    intro acc w hacc
    cases w <;> simpa [visitGoF] using hacc
  | succ n ih =>
    intro acc w hacc
    cases w with
    | nil => simpa [visitGoF] using hacc
    | cons d rest =>
      simp only [visitGoF]
      cases htm : c.tmpl d with
      | none => exact ih acc rest hacc
      | some l =>
        dsimp only
        by_cases hdata : d = "data" ∨ startsWithDataColon d
        · rw [if_pos hdata]
          exact ih acc rest hacc
        · rw [if_neg hdata]
          by_cases hacc2 : acc.contains d
          · rw [if_pos hacc2]
            exact ih acc rest hacc
          · rw [if_neg hacc2]
            apply ih
            rw [List.nodup_append]
            refine ⟨hacc, List.nodup_singleton d, ?_⟩
            intro a ha hd
            rw [List.mem_singleton] at hd
            subst hd
            exact hacc2 (by simpa using ha)

theorem visitNames_nodup (c : Cell) (needed : List String) :
    (visitNames c needed).Nodup :=
  visitGoF_nodup c _ [] needed List.nodup_nil

theorem visitNames_tmpl (c : Cell) (needed : List String) :
    ∀ x ∈ visitNames c needed, ∃ l, c.tmpl x = some l := by
  intro x hx
  rcases visitGoF_sound c _ [] needed x hx with h | h
  · cases h
  · exact h

theorem map_name_filterMap {c : Cell} (hwf : c.WFb = true) :
    ∀ {ns : List String}, (∀ n ∈ ns, ∃ l, c.tmpl n = some l) →
      ((ns.filterMap c.tmpl).map (fun x => x.name)) = ns := by
  intro ns
  induction ns with
  | nil => intro; rfl
  | cons x xs ih =>
    intro h
    rcases h x (List.mem_cons_self x xs) with ⟨l, hl⟩
    rw [List.filterMap_cons, hl]
    simp only [List.map_cons]
    rw [tmpl_name hwf hl, ih (fun n hn => h n (List.mem_cons_of_mem x hn))]

theorem initialInLoop_map_name {c : Cell} (hwf : c.WFb = true) (needed : List String) :
    ((initialInLoop c needed).map (fun x => x.name)) = visitNames c needed :=
  map_name_filterMap hwf (visitNames_tmpl c needed)

theorem initialInLoop_consistent {c : Cell} (hwf : c.WFb = true) (needed : List String) :
    ∀ l ∈ initialInLoop c needed, c.tmpl l.name = some l := by
  intro l hl
  rcases List.mem_filterMap.1 hl with ⟨n, _, hn⟩
  rw [tmpl_name hwf hn]
  exact hn

theorem moveOutsideLoop_perm {c : Cell} (hwf : c.WFb = true) (needed : List String) :
    List.Perm (allNames (moveOutsideLoop c needed)) (visitNames c needed) := by
  unfold moveOutsideLoop moveBothLoop moveOutputsLoop
  refine ((moveBothLoopF_perm c _ _).trans (moveOutputsLoopF_perm c _ _)).trans ?_
  rw [← initialInLoop_map_name hwf needed]
  simp [allNames]

theorem moveOutsideLoop_inv {c : Cell} (hwf : c.WFb = true) (needed : List String) :
    loopConsistent c (moveOutsideLoop c needed) ∧ movedInv c (moveOutsideLoop c needed) := by
  unfold moveOutsideLoop moveBothLoop moveOutputsLoop
  have h0 : loopConsistent c
      { inLoop := initialInLoop c needed, inputMovedOut := [], outputMovedOut := [] } :=
    initialInLoop_consistent hwf needed
  have hm0 : movedInv c
      { inLoop := initialInLoop c needed, inputMovedOut := [], outputMovedOut := [] } := by
    constructor <;> intro n hn <;> cases hn
  have h1 := moveOutputsLoopF_inv c
    (MoveState.mk (initialInLoop c needed) [] []).inLoop.length
    (MoveState.mk (initialInLoop c needed) [] []) h0 hm0
  exact moveBothLoopF_inv c _ _ h1.1 h1.2

theorem moveOutsideLoop_fix (c : Cell) (needed : List String) :
    findOutputLayer c (moveOutsideLoop c needed) = none ∧
    findInputLayer c (moveOutsideLoop c needed) = none := by
  unfold moveOutsideLoop moveBothLoop
  exact moveBothLoopF_fix c _ _ (Nat.le_refl _)

theorem tmpl_unique {c : Cell} {n : String} {l l' : TLayer}
    (h : c.tmpl n = some l) (h' : c.tmpl n = some l') : l = l' :=
  Option.some.inj (h.symm.trans h')

theorem inputMoveTarget_end_or_search {c : Cell} {l : TLayer}
    (h : l.name = "end" ∨ (c.searchFlag = true ∧ l.searchChoices = true)) :
    inputMoveTarget c l = none := by
  unfold inputMoveTarget
  split_ifs with h1 h2 h3 <;> first
  | rfl
  | (exfalso
     rcases h with h | h
     · exact h1 (Or.inr h)
     · exact h2 (by simp [h.1, h.2]))

theorem outputMoveTarget_end_or_search {c : Cell} {l : TLayer}
    (h : l.name = "end" ∨ (c.searchFlag = true ∧ l.searchChoices = true)) :
    outputMoveTarget c l = none := by
  unfold outputMoveTarget
  split_ifs with h1 h2 h3 <;> first
  | rfl
  | (exfalso
     rcases h with h | h
     · exact h1 h
     · exact h2 (by simp [h.1, h.2]))

theorem inputMoveTarget_nonsub {c : Cell} {l t : TLayer}
    (hs : isSubLayerName l.name = false) (ht : inputMoveTarget c l = some t) :
    t = l := by
  unfold inputMoveTarget at ht
  split_ifs at ht with h1 h2 h3
  · exact absurd h3 (by simp [hs])
  · exact (Option.some.inj ht).symm

theorem outputMoveTarget_nonsub {c : Cell} {l t : TLayer}
    (hs : isSubLayerName l.name = false) (ht : outputMoveTarget c l = some t) :
    t = l := by
  unfold outputMoveTarget at ht
  split_ifs at ht with h1 h2 h3
  · exact absurd h3 (by simp [hs])
  · exact (Option.some.inj ht).symm

theorem inputMoveTarget_sub {c : Cell} {l t : TLayer}
    (hs : isSubLayerName l.name = true) (ht : inputMoveTarget c l = some t) :
    c.tmpl (rootName l.name) = some t := by
  unfold inputMoveTarget at ht
  split_ifs at ht with h1 h2 h3
  cases htm : c.tmpl (rootName l.name) with
  | none => rw [htm] at ht; exact ht
  | some root =>
    rw [htm] at ht
    dsimp only at ht
    split_ifs at ht
    exact ht

theorem outputMoveTarget_sub {c : Cell} {l t : TLayer}
    (hs : isSubLayerName l.name = true) (ht : outputMoveTarget c l = some t) :
    c.tmpl (rootName l.name) = some t := by
  unfold outputMoveTarget at ht
  split_ifs at ht with h1 h2 h3
  cases htm : c.tmpl (rootName l.name) with
  | none => rw [htm] at ht; exact ht
  | some root =>
    rw [htm] at ht
    dsimp only at ht
    split_ifs at ht
    exact ht

theorem nodup_three_exactly_one {A B C : List String} (h : (A ++ B ++ C).Nodup)
    {n : String} (hn : n ∈ A ++ B ++ C) :
    (n ∈ A ∧ n ∉ B ∧ n ∉ C) ∨ (n ∉ A ∧ n ∈ B ∧ n ∉ C) ∨ (n ∉ A ∧ n ∉ B ∧ n ∈ C) := by
  rcases List.nodup_append.1 h with ⟨hAB, hC, hdisj⟩
  rcases List.nodup_append.1 hAB with ⟨hA, hB, hdisjAB⟩
  have hmem := hn
  rw [List.mem_append, List.mem_append] at hmem
  rcases hmem with (hA' | hB') | hC'
  · exact Or.inl ⟨hA', fun hB'' => hdisjAB hA' hB'',
      fun hC'' => hdisj (List.mem_append.2 (Or.inl hA')) hC''⟩
  · exact Or.inr (Or.inl ⟨fun hA'' => hdisjAB hA'' hB', hB',
      fun hC'' => hdisj (List.mem_append.2 (Or.inr hB')) hC''⟩)
  · exact Or.inr (Or.inr ⟨fun hA'' => hdisj (List.mem_append.2 (Or.inl hA'')) hC',
      fun hB'' => hdisj (List.mem_append.2 (Or.inr hB'')) hC', hC'⟩)

theorem inputBlocked_false_iff {inLoop : List TLayer} {t : TLayer} :
    inputBlocked inLoop t = false ↔
      ∀ m ∈ inLoop, m.name ∉ t.deps ∧ m.name ∉ t.collocateWith := by
  unfold inputBlocked
  rw [← Bool.not_eq_true, List.any_eq_true]
  constructor
  · intro h m hm
    constructor
    · intro hmem
      exact h ⟨m, hm, by simp [hmem]⟩
    · intro hmem
      exact h ⟨m, hm, by simp [hmem]⟩
  · rintro h ⟨m, hm, hp⟩
    rcases h m hm with ⟨h1, h2⟩
    simp only [Bool.or_eq_true, List.contains, List.elem_eq_mem, decide_eq_true_eq] at hp
    tauto

theorem outputBlocked_false_iff {inLoop : List TLayer} {t : TLayer} :
    outputBlocked inLoop t = false ↔
      ∀ m ∈ inLoop, t.name ∉ m.deps ∧ m.name ∉ t.collocateWith := by
  unfold outputBlocked
  rw [← Bool.not_eq_true, List.any_eq_true]
  constructor
  · intro h m hm
    constructor
    · intro hmem
      exact h ⟨m, hm, by simp [hmem]⟩
    · intro hmem
      exact h ⟨m, hm, by simp [hmem]⟩
  · rintro h ⟨m, hm, hp⟩
    rcases h m hm with ⟨h1, h2⟩
    simp only [Bool.or_eq_true, List.contains, List.elem_eq_mem, decide_eq_true_eq] at hp
    tauto

theorem inputBlocked_true_iff {inLoop : List TLayer} {t : TLayer} :
    inputBlocked inLoop t = true ↔
      ∃ m ∈ inLoop, m.name ∈ t.deps ∨ m.name ∈ t.collocateWith := by
  unfold inputBlocked
  rw [List.any_eq_true]
  constructor
  · rintro ⟨m, hm, hp⟩
    exact ⟨m, hm, by simpa using hp⟩
  · rintro ⟨m, hm, hp⟩
    exact ⟨m, hm, by simpa using hp⟩

theorem inputMoveTarget_eq_self {c : Cell} {m : TLayer}
    (h1 : m.name ≠ ":i") (h2 : m.name ≠ "end")
    (h3 : ¬(c.searchFlag = true ∧ m.searchChoices = true))
    (h4 : isSubLayerName m.name = false) : inputMoveTarget c m = some m := by
  unfold inputMoveTarget
  rw [if_neg (by tauto), if_neg (by
    intro hb
    rw [Bool.and_eq_true] at hb
    exact h3 ⟨hb.1, hb.2⟩), if_neg (by simp [h4])]

/-- C1: after the loop-hoisting partition (`_move_outside_loop`) completes,
the layer names reachable from the needed outputs are partitioned: every such
name lies in exactly one of `input_layers_moved_out` (pre-loop),
`layers_in_loop`, and `output_layers_moved_out` (post-loop); no name moved to
pre-loop has a current-step dependency on a name still in the loop; and no
name moved to post-loop is a current-step dependency of any name remaining in
the loop. -/
theorem C1_partition_invariant (c : Cell) (needed : List String) (hwf : c.WFb = true) :
    (∀ n, n ∈ visitNames c needed ↔
        (n ∈ (moveOutsideLoop c needed).inLoop.map (fun x => x.name) ∨
         n ∈ (moveOutsideLoop c needed).inputMovedOut ∨
         n ∈ (moveOutsideLoop c needed).outputMovedOut)) ∧
    (∀ n ∈ visitNames c needed,
        (n ∈ (moveOutsideLoop c needed).inLoop.map (fun x => x.name) ∧
           n ∉ (moveOutsideLoop c needed).inputMovedOut ∧
           n ∉ (moveOutsideLoop c needed).outputMovedOut) ∨
        (n ∉ (moveOutsideLoop c needed).inLoop.map (fun x => x.name) ∧
           n ∈ (moveOutsideLoop c needed).inputMovedOut ∧
           n ∉ (moveOutsideLoop c needed).outputMovedOut) ∨
        (n ∉ (moveOutsideLoop c needed).inLoop.map (fun x => x.name) ∧
           n ∉ (moveOutsideLoop c needed).inputMovedOut ∧
           n ∈ (moveOutsideLoop c needed).outputMovedOut)) ∧
    (∀ n ∈ (moveOutsideLoop c needed).inputMovedOut, ∀ l, c.tmpl n = some l →
        ∀ d ∈ l.curDeps, ∀ m ∈ (moveOutsideLoop c needed).inLoop, m.name ≠ d) ∧
    (∀ n ∈ (moveOutsideLoop c needed).outputMovedOut,
        ∀ m ∈ (moveOutsideLoop c needed).inLoop, n ∉ m.curDeps) := by
  have hperm := moveOutsideLoop_perm hwf needed
  have hnd : (allNames (moveOutsideLoop c needed)).Nodup :=
    hperm.nodup_iff.2 (visitNames_nodup c needed)
  have hinv := moveOutsideLoop_inv hwf needed
  refine ⟨?_, ?_, ?_, ?_⟩
  · intro n
    rw [← hperm.mem_iff]
    simp [allNames, List.mem_append, or_assoc]
  · intro n hn
    have hmem : n ∈ allNames (moveOutsideLoop c needed) := hperm.mem_iff.2 hn
    exact nodup_three_exactly_one hnd hmem
  · intro n hn l hl d hd m hm heq
    rcases hinv.2.1 n hn with ⟨l', hl', hpred⟩
    have hll : l = l' := tmpl_unique hl hl'
    subst hll
    have hlname : l.name = n := tmpl_name hwf hl
    have hwfl := wf_entry hwf (tmpl_mem hl)
    by_cases hsub : isSubLayerName l.name = true
    · have hdeps : l.deps = [] := hwfl.2.2.2.2.1 (by rw [← hlname]; exact hsub)
      have : d ∈ l.deps := hwfl.2.1 d hd
      rw [hdeps] at this
      cases this
    · rw [inputCanMoveOut_eq] at hpred
      cases ht : inputMoveTarget c l with
      | none => rw [ht] at hpred; cases hpred
      | some t =>
        rw [ht] at hpred
        dsimp only at hpred
        rw [Bool.not_eq_true'] at hpred
        have htl : t = l :=
          inputMoveTarget_nonsub (Bool.not_eq_true _ ▸ hsub) ht
        subst htl
        rcases inputBlocked_false_iff.1 hpred m hm with ⟨hnd1, _⟩
        apply hnd1
        rw [heq]
        exact hwfl.2.1 d hd
  · intro n hn m hm hmem
    rcases hinv.2.2 n hn with ⟨l', hl', hpred⟩
    have hlname : l'.name = n := tmpl_name hwf hl'
    have hmc : c.tmpl m.name = some m := hinv.1 m hm
    have hwfm := wf_entry hwf (tmpl_mem hmc)
    have hdep : n ∈ m.deps := hwfm.2.1 n hmem
    rw [outputCanMoveOut_eq] at hpred
    cases ht : outputMoveTarget c l' with
    | none => rw [ht] at hpred; cases hpred
    | some t =>
      rw [ht] at hpred
      dsimp only at hpred
      rw [Bool.not_eq_true'] at hpred
      rcases outputBlocked_false_iff.1 hpred m hm with ⟨hnd1, _⟩
      by_cases hsub : isSubLayerName l'.name = true
      · have hroot := outputMoveTarget_sub hsub ht
        have htname : t.name = rootName l'.name := tmpl_name hwf hroot
        apply hnd1
        rw [htname, hlname]
        exact hwfm.2.2.2.2.2 n hdep (by rw [← hlname]; exact hsub)
      · have htl : t = l' := outputMoveTarget_nonsub (Bool.not_eq_true _ ▸ hsub) ht
        subst htl
        rw [hlname] at hnd1
        exact hnd1 hdep

/-- C1 witness: the partition invariant holds for the concrete cell `cellW`
(the well-formedness hypothesis is discharged by computation). -/
theorem C1_partition_invariant_witness :
    cellW.WFb = true ∧
    (∀ n ∈ (moveOutsideLoop cellW ["output", "end", "post"]).inputMovedOut,
      ∀ l, cellW.tmpl n = some l →
      ∀ d ∈ l.curDeps, ∀ m ∈ (moveOutsideLoop cellW ["output", "end", "post"]).inLoop,
        m.name ≠ d) :=
  ⟨by decide,
    (C1_partition_invariant cellW ["output", "end", "post"] (by decide)).2.2.1⟩

/-- C4 counterexample: in `cellC4`, layer `a` is non-excluded (not `:i`, not
`end`, no search choices, not a sub-layer) and its only dependency still in
the loop is the previous-step dependency on `b` (its current-step dependency
list is empty), yet `_move_outside_loop` does not move `a` to
`input_layers_moved_out`: it stays in the loop. -/
theorem C4_counterexample :
    cellC4.WFb = true ∧
    cellC4.tmpl "a" = some (TLayer.mk "a" ["b"] [] ["b"] false []) ∧
    isSubLayerName "a" = false ∧
    "b" ∈ (moveOutsideLoop cellC4 ["c"]).inLoop.map (fun x => x.name) ∧
    (moveOutsideLoop cellC4 ["c"]).inputMovedOut = [] ∧
    "a" ∈ (moveOutsideLoop cellC4 ["c"]).inLoop.map (fun x => x.name) := by
  decide

/-- C4 (amended): the input-side extraction condition considers ALL of L's
recorded dependencies -- current-step and previous-step alike (plus
collocation constraints).  Hence (a) at the fixed point every non-excluded
root layer remaining in the loop still has some dependency (of either kind)
or collocation partner in the loop, and (b) every name moved to pre-loop had
none of its dependencies (of either kind) still in the loop; a layer whose
only in-loop dependencies are previous-step ones is NOT moved out. -/
theorem C4_amended (c : Cell) (needed : List String) (hwf : c.WFb = true) :
    (∀ m ∈ (moveOutsideLoop c needed).inLoop,
      m.name ≠ ":i" → m.name ≠ "end" →
      ¬(c.searchFlag = true ∧ m.searchChoices = true) →
      isSubLayerName m.name = false →
      ∃ other ∈ (moveOutsideLoop c needed).inLoop,
        other.name ∈ m.deps ∨ other.name ∈ m.collocateWith) ∧
    (∀ n ∈ (moveOutsideLoop c needed).inputMovedOut, ∀ l, c.tmpl n = some l →
      isSubLayerName n = false →
      ∀ m ∈ (moveOutsideLoop c needed).inLoop, m.name ∉ l.deps) := by
  have hfix := moveOutsideLoop_fix c needed
  have hinv := moveOutsideLoop_inv hwf needed
  constructor
  · intro m hm h1 h2 h3 h4
    have hnone : inputCanMoveOut c (moveOutsideLoop c needed).inLoop m = false := by
      have := List.find?_eq_none.1 hfix.2 m hm
      simpa using this
    rw [inputCanMoveOut_eq, inputMoveTarget_eq_self h1 h2 h3 h4] at hnone
    dsimp only at hnone
    rw [Bool.not_eq_false'] at hnone
    exact inputBlocked_true_iff.1 hnone
  · intro n hn l hl hnsub m hm hmem
    rcases hinv.2.1 n hn with ⟨l', hl', hpred⟩
    have hll : l = l' := tmpl_unique hl hl'
    subst hll
    have hlname : l.name = n := tmpl_name hwf hl
    rw [inputCanMoveOut_eq] at hpred
    cases ht : inputMoveTarget c l with
    | none => rw [ht] at hpred; cases hpred
    | some t =>
      rw [ht] at hpred
      dsimp only at hpred
      rw [Bool.not_eq_true'] at hpred
      have htl : t = l := inputMoveTarget_nonsub (by rw [hlname]; exact hnsub) ht
      subst htl
      rcases inputBlocked_false_iff.1 hpred m hm with ⟨hnd1, _⟩
      exact hnd1 hmem

/-- C4 amended witness at the concrete cell `cellC4`. -/
theorem C4_amended_witness :
    cellC4.WFb = true ∧
    (∀ n ∈ (moveOutsideLoop cellC4 ["c"]).inputMovedOut, ∀ l, cellC4.tmpl n = some l →
      isSubLayerName n = false →
      ∀ m ∈ (moveOutsideLoop cellC4 ["c"]).inLoop, m.name ∉ l.deps) :=
  ⟨by decide, (C4_amended cellC4 ["c"] (by decide)).2⟩

/-- C5: the layer named `end`, and (when search is active) every layer with
active search choices, are never hoisted: they never appear in
`input_layers_moved_out` or `output_layers_moved_out`, and when reachable
from the needed outputs they remain in `layers_in_loop`. -/
theorem C5_end_and_search_never_hoisted (c : Cell) (needed : List String)
    (hwf : c.WFb = true) :
    ("end" ∉ (moveOutsideLoop c needed).inputMovedOut ∧
     "end" ∉ (moveOutsideLoop c needed).outputMovedOut ∧
     ("end" ∈ visitNames c needed →
       "end" ∈ (moveOutsideLoop c needed).inLoop.map (fun x => x.name))) ∧
    (∀ n l, c.tmpl n = some l → c.searchFlag = true → l.searchChoices = true →
      n ∉ (moveOutsideLoop c needed).inputMovedOut ∧
      n ∉ (moveOutsideLoop c needed).outputMovedOut ∧
      (n ∈ visitNames c needed →
        n ∈ (moveOutsideLoop c needed).inLoop.map (fun x => x.name))) := by
  have hperm := moveOutsideLoop_perm hwf needed
  have hinv := moveOutsideLoop_inv hwf needed
  have hnotin : ∀ n l, c.tmpl n = some l →
      (l.name = "end" ∨ (c.searchFlag = true ∧ l.searchChoices = true)) →
      n ∉ (moveOutsideLoop c needed).inputMovedOut ∧
      n ∉ (moveOutsideLoop c needed).outputMovedOut := by
    intro n l hl hexcl
    constructor
    · intro hn
      rcases hinv.2.1 n hn with ⟨l', hl', hpred⟩
      have : l = l' := tmpl_unique hl hl'
      subst this
      rw [inputCanMoveOut_eq, inputMoveTarget_end_or_search hexcl] at hpred
      cases hpred
    · intro hn
      rcases hinv.2.2 n hn with ⟨l', hl', hpred⟩
      have : l = l' := tmpl_unique hl hl'
      subst this
      rw [outputCanMoveOut_eq, outputMoveTarget_end_or_search hexcl] at hpred
      cases hpred
  have hloop : ∀ n, n ∈ visitNames c needed →
      n ∉ (moveOutsideLoop c needed).inputMovedOut →
      n ∉ (moveOutsideLoop c needed).outputMovedOut →
      n ∈ (moveOutsideLoop c needed).inLoop.map (fun x => x.name) := by
    intro n hn h1 h2
    have hmem : n ∈ allNames (moveOutsideLoop c needed) := hperm.mem_iff.2 hn
    unfold allNames at hmem
    rw [List.mem_append, List.mem_append] at hmem
    rcases hmem with (hA | hB) | hC
    · exact hA
    · exact absurd hB h1
    · exact absurd hC h2
  constructor
  · by_cases hend : ∃ l, c.tmpl "end" = some l
    · rcases hend with ⟨l, hl⟩
      have hname : l.name = "end" := tmpl_name hwf hl
      rcases hnotin "end" l hl (Or.inl hname) with ⟨h1, h2⟩
      exact ⟨h1, h2, fun hv => hloop "end" hv h1 h2⟩
    · constructor
      · intro hn
        rcases hinv.2.1 "end" hn with ⟨l', hl', _⟩
        exact hend ⟨l', hl'⟩
      constructor
      · intro hn
        rcases hinv.2.2 "end" hn with ⟨l', hl', _⟩
        exact hend ⟨l', hl'⟩
      · intro hv
        rcases visitNames_tmpl c needed "end" hv with ⟨l, hl⟩
        exact absurd ⟨l, hl⟩ hend
  · intro n l hl hsf hsc
    rcases hnotin n l hl (Or.inr ⟨hsf, hsc⟩) with ⟨h1, h2⟩
    exact ⟨h1, h2, fun hv => hloop n hv h1 h2⟩

/-- C5 witness: in the searching cell `cellS`, neither `end` nor the
search-choice layer `output` is hoisted; both remain in the loop. -/
theorem C5_end_and_search_never_hoisted_witness :
    cellS.WFb = true ∧
    ("end" ∉ (moveOutsideLoop cellS ["output", "end"]).inputMovedOut ∧
     "end" ∉ (moveOutsideLoop cellS ["output", "end"]).outputMovedOut ∧
     ("end" ∈ visitNames cellS ["output", "end"] →
       "end" ∈ (moveOutsideLoop cellS ["output", "end"]).inLoop.map (fun x => x.name))) :=
  ⟨by decide, (C5_end_and_search_never_hoisted cellS ["output", "end"] (by decide)).1⟩

/-! ### Step-loop theorems -/

theorem loopCond_dynamic_user (cap : Nat) (endFlag : List Bool) (i : Nat) :
    loopCond none (some cap) (some endFlag) i =
      Except.ok (decide (i < cap) && endFlag.any (fun e => !e)) := rfl

theorem loopCond_dynamic_known (cap : Nat) (endFlag : List Bool) (i : Nat) :
    loopCond (some cap) none (some endFlag) i =
      Except.ok (decide (i < cap) && endFlag.any (fun e => !e)) := rfl

theorem loopCond_no_cap_fatal (endFlag : Option (List Bool)) (i : Nat) :
    loopCond none none endFlag i = Except.error "specify max_seq_len" := rfl

theorem runStepsGo_spec (cap : Nat) (endSignal : Nat → List Bool) (flags0 : List Bool) :
    ∀ (fuel i : Nat), cap - i ≤ fuel → i ≤ cap →
      i ≤ (runStepsGo cap endSignal fuel i (flagsAt endSignal flags0 i)).1 ∧
      (runStepsGo cap endSignal fuel i (flagsAt endSignal flags0 i)).1 ≤ cap ∧
      (runStepsGo cap endSignal fuel i (flagsAt endSignal flags0 i)).2 =
        flagsAt endSignal flags0 (runStepsGo cap endSignal fuel i (flagsAt endSignal flags0 i)).1 ∧
      (∀ j, i ≤ j → j < (runStepsGo cap endSignal fuel i (flagsAt endSignal flags0 i)).1 →
        j < cap ∧ (flagsAt endSignal flags0 j).any (fun e => !e) = true) ∧
      ((runStepsGo cap endSignal fuel i (flagsAt endSignal flags0 i)).1 = cap ∨
        (flagsAt endSignal flags0
          (runStepsGo cap endSignal fuel i (flagsAt endSignal flags0 i)).1).any
            (fun e => !e) = false) := by
  intro fuel
  induction fuel with
  | zero =>
    intro i hfuel hicap
    have hieq : i = cap := by omega
    refine ⟨Nat.le_refl i, hicap, rfl, ?_, Or.inl hieq⟩
    intro j hij hji
    have hji2 : j < i := hji
    omega
  | succ n ih =>
    intro i hfuel hicap
    simp only [runStepsGo]
    by_cases hc : (decide (i < cap) && (flagsAt endSignal flags0 i).any (fun e => !e)) = true
    · rw [if_pos hc]
      rw [Bool.and_eq_true, decide_eq_true_eq] at hc
      have hstep : stepEndFlag (flagsAt endSignal flags0 i) (endSignal i) =
          flagsAt endSignal flags0 (i + 1) := rfl
      rw [hstep]
      have hih := ih (i + 1) (by omega) (by omega)
      refine ⟨by omega, hih.2.1, hih.2.2.1, ?_, hih.2.2.2.2⟩
      intro j hij hji
      rcases Nat.eq_or_lt_of_le hij with heq | hlt
      · subst heq
        exact ⟨hc.1, hc.2⟩
      · exact hih.2.2.2.1 j hlt hji
    · rw [if_neg hc]
      refine ⟨Nat.le_refl i, hicap, rfl, ?_, ?_⟩
      · intro j hij hji
        omega
      · rw [Bool.and_eq_true, decide_eq_true_eq, not_and_or] at hc
        rcases hc with hc | hc
        · exact Or.inl (by omega)
        · exact Or.inr (by simpa using hc)

/-- C2: when the sequence length is not known in advance, the step loop
continues at step `i` iff `i` is below the hard cap and at least one
hypothesis has not yet signalled end (`cond`, rec.py:2340-2370; the `end`
flag accumulates by logical or, rec.py:2312); hence the loop stops at the
first step where all hypotheses have ended or at the cap, whichever comes
first, and the number of executed steps never exceeds the cap.  (With no cap
at all, `cond` is a fatal construction error: `loopCond_no_cap_fatal`.) -/
theorem C2_dynamic_termination (cap : Nat) (endSignal : Nat → List Bool)
    (flags0 : List Bool) :
    (runLoop cap endSignal flags0).1 ≤ cap ∧
    (∀ j < (runLoop cap endSignal flags0).1,
      loopCond none (some cap) (some (flagsAt endSignal flags0 j)) j = Except.ok true) ∧
    ((runLoop cap endSignal flags0).1 = cap ∨
      ((flagsAt endSignal flags0 (runLoop cap endSignal flags0).1).any
        (fun e => !e)) = false) ∧
    loopCond none (some cap)
      (some (flagsAt endSignal flags0 (runLoop cap endSignal flags0).1))
      (runLoop cap endSignal flags0).1 = Except.ok false ∧
    (runLoop cap endSignal flags0).2 =
      flagsAt endSignal flags0 (runLoop cap endSignal flags0).1 := by
  have hspec := runStepsGo_spec cap endSignal flags0 cap 0 (by omega) (by omega)
  have h0 : flagsAt endSignal flags0 0 = flags0 := rfl
  rw [h0] at hspec
  have hrl : runLoop cap endSignal flags0 = runStepsGo cap endSignal cap 0 flags0 := rfl
  rw [hrl]
  refine ⟨hspec.2.1, ?_, hspec.2.2.2.2, ?_, hspec.2.2.1⟩
  · intro j hj
    rcases hspec.2.2.2.1 j (Nat.zero_le j) hj with ⟨hjc, hany⟩
    rw [loopCond_dynamic_user]
    simp [hjc, hany]
  · rw [loopCond_dynamic_user]
    rcases hspec.2.2.2.2 with h | h
    · rw [h]
      simp
    · rw [h]
      simp

/-! ### Sequence-length determination theorem -/

/-- C7: a recurrent subnet that declares no statically derivable total length
(no output size placeholder, no `size_target`, no input sequence to take the
length from) and no layer named `"end"` fails at graph-construction time with
the fatal error of rec.py:1863, before the step loop is built. -/
theorem C7_missing_length_fatal {α : Type} (outSizePlaceholder : Option α)
    (outputSearchChoices : Bool) (sizeTarget : Option α) (endInTemplates : Bool)
    (inputSeqLen : Option α)
    (hout : outSizePlaceholder = none) (htgt : sizeTarget = none)
    (hend : endInTemplates = false) (hinp : inputSeqLen = none) :
    computeSeqLenInfo outSizePlaceholder outputSearchChoices sizeTarget
        endInTemplates inputSeqLen =
      Except.error "length is not defined. provide an end layer" := by
  subst hout htgt hend hinp
  simp [computeSeqLenInfo]

/-- C7 witness at a concrete instantiation (all hypotheses hold by `rfl`). -/
theorem C7_missing_length_fatal_witness :
    computeSeqLenInfo (none : Option Nat) false none false none =
      Except.error "length is not defined. provide an end layer" :=
  C7_missing_length_fatal none false none false none rfl rfl rfl rfl

/-! ### Template-refinement loop theorems -/

theorem refineLoopF_stopped_init (sweep : List CLayer → List CLayer × Bool) :
    ∀ (fuel loopLimit : Nat) (pf pf' : List CLayer),
      refineLoopF sweep fuel loopLimit pf = RefineResult.stoppedNoProgress pf' →
      pf'.all (fun l => l.isInitialized) = true := by
  intro fuel
  induction fuel with
  | zero =>
    intro ll pf pf' h
    exact RefineResult.noConfusion h
  | succ n ih =>
    intro ll pf pf' h
    simp only [refineLoopF] at h
    by_cases hemp : pf.isEmpty
    · rw [if_pos hemp] at h
      exact RefineResult.noConfusion h
    · rw [if_neg hemp] at h
      by_cases h1 : (sweep pf).1.length < pf.length
      · rw [if_pos h1] at h
        exact ih ll (sweep pf).1 pf' h
      · rw [if_neg h1] at h
        by_cases h2 : (sweep pf).2 = false
        · rw [if_pos h2] at h
          by_cases h3 : (sweep pf).1.all (fun l => l.isInitialized)
          · rw [if_pos h3] at h
            cases h
            exact h3
          · rw [if_neg h3] at h
            exact RefineResult.noConfusion h
        · rw [if_neg h2] at h
          by_cases h4 : ll = 0
          · rw [if_pos h4] at h
            exact RefineResult.noConfusion h
          · rw [if_neg h4] at h
            exact ih (ll - 1) (sweep pf).1 pf' h

theorem refineLoopF_no_outOfFuel (sweep : List CLayer → List CLayer × Bool) (UB : Nat)
    (hb : ∀ s, (sweep s).1.length ≤ UB) :
    ∀ (fuel loopLimit : Nat) (pf : List CLayer),
      (loopLimit + 1) * (UB + 1) + pf.length < fuel →
      refineLoopF sweep fuel loopLimit pf ≠ RefineResult.outOfFuel := by
  intro fuel
  induction fuel with
  | zero =>
    intro ll pf h
    exact absurd h (Nat.not_lt_zero _)
  | succ n ih =>
    intro ll pf h
    simp only [refineLoopF]
    by_cases hemp : pf.isEmpty
    · rw [if_pos hemp]
      exact fun hh => RefineResult.noConfusion hh
    · rw [if_neg hemp]
      by_cases h1 : (sweep pf).1.length < pf.length
      · rw [if_pos h1]
        apply ih
        have h' : (ll + 1) * (UB + 1) + pf.length ≤ n := by omega
        linarith
      · rw [if_neg h1]
        by_cases h2 : (sweep pf).2 = false
        · rw [if_pos h2]
          by_cases h3 : (sweep pf).1.all (fun l => l.isInitialized)
          · rw [if_pos h3]
            exact fun hh => RefineResult.noConfusion hh
          · rw [if_neg h3]
            exact fun hh => RefineResult.noConfusion hh
        · rw [if_neg h2]
          by_cases h4 : ll = 0
          · rw [if_pos h4]
            exact fun hh => RefineResult.noConfusion hh
          · rw [if_neg h4]
            apply ih
            have hble := hb pf
            have hmul : (ll - 1 + 1) * (UB + 1) + (UB + 1) = (ll + 1) * (UB + 1) := by
              have hll : ll - 1 + 1 = ll := by omega
              rw [hll]
              ring
            have hpf1 : 1 ≤ pf.length := by
              cases pf with
              | nil => simp at hemp
              | cons a l => simp
            have h' : (ll + 1) * (UB + 1) + pf.length ≤ n := by omega
            linarith

/-- C3: the iterative-refinement phase of template construction always
terminates: with any sweep behaviour (the per-pass reconstruction of every
partially-finished node, which may shrink, change or grow the set within the
finite universe of templates, bound `UB`), the loop reaches one of its exit
conditions -- the set empties, a pass with neither reduction nor descriptor
change breaks (asserting, fatally otherwise, that every remaining node is
initialized), or the iteration budget (initialized to the initial count of
partially-finished nodes, rec.py:1343) is exhausted fatally -- and never runs
out of the canonical fuel. -/
theorem C3_refine_terminates (UB : Nat) (sweep : List CLayer → List CLayer × Bool)
    (pf0 : List CLayer) (hb : ∀ s, (sweep s).1.length ≤ UB) :
    constructTemplateRefine UB sweep pf0 ≠ RefineResult.outOfFuel ∧
    (∀ pf', constructTemplateRefine UB sweep pf0 = RefineResult.stoppedNoProgress pf' →
      pf'.all (fun l => l.isInitialized) = true) ∧
    constructTemplateRefine UB sweep pf0 =
      refineLoopF sweep (refineFuel UB pf0) pf0.length pf0 := by
  refine ⟨?_, fun pf' h => refineLoopF_stopped_init sweep _ _ _ _ h, rfl⟩
  apply refineLoopF_no_outOfFuel sweep UB hb
  exact Nat.lt_succ_self _

/-- C3 witness: a concrete sweep (always returning the empty list, bound 0)
terminates on a one-element initial set. -/
theorem C3_refine_terminates_witness :
    (∀ s : List CLayer, ((fun _ : List CLayer => (([] : List CLayer), false)) s).1.length ≤ 0) ∧
    constructTemplateRefine 0 (fun _ => ([], false)) [c3l1] ≠ RefineResult.outOfFuel :=
  ⟨fun _ => Nat.le_refl 0,
    (C3_refine_terminates 0 (fun _ => ([], false)) [c3l1] (fun _ => Nat.le_refl 0)).1⟩

/-! ### `GetLayer.__call__` attempt-order theorems -/

/-- C6 counterexample: with iterative testing on, the name not on the
construction stack, the first optimistic attempt failing and the second
(allowing uninitialized templates) succeeding, the full recursive
construction pass IS still performed -- `default_success` is only ever set by
the first variant (rec.py:1277-1278) -- contradicting "only if both
optimistic attempts fail is full recursive construction performed". -/
theorem C6_counterexample :
    (getLayerCall true false false true AttemptResult.failure AttemptResult.success
        FullResult.success).triedAllowUninitialized = true ∧
    (getLayerCall true false false true AttemptResult.failure AttemptResult.success
        FullResult.success).triedFullRecursion = true ∧
    (getLayerCall true false false true AttemptResult.failure AttemptResult.success
        FullResult.success).outcome = CallOutcome.returned := by
  refine ⟨rfl, rfl, rfl⟩

/-- C6 (amended): the optimistic attempts run in a fixed order (the variant
permitting uninitialized templates runs only after the default variant
failed), they run at all only when iterative testing is enabled and the name
is not on the construction stack, full recursive construction is performed
whenever the FIRST optimistic attempt did not succeed (even if the second
succeeded), and a construction-dependency-loop failure of the full pass is
suppressed if and only if the node was already provisionally initialized with
iterative testing enabled and no reconstruction forced. -/
theorem C6_amended (iterativeTesting reconstruct nameOnStack layerInitialized : Bool)
    (res1 res2 : AttemptResult) (fullRes : FullResult) :
    ((getLayerCall iterativeTesting reconstruct nameOnStack layerInitialized
        res1 res2 fullRes).triedAllowUninitialized = true →
      (getLayerCall iterativeTesting reconstruct nameOnStack layerInitialized
        res1 res2 fullRes).triedDefaultOptimistic = true ∧ res1 = AttemptResult.failure) ∧
    ((getLayerCall iterativeTesting reconstruct nameOnStack layerInitialized
        res1 res2 fullRes).triedDefaultOptimistic = (iterativeTesting && !nameOnStack)) ∧
    ((getLayerCall iterativeTesting reconstruct nameOnStack layerInitialized
        res1 res2 fullRes).triedFullRecursion =
      !(iterativeTesting && !nameOnStack && decide (res1 = AttemptResult.success))) ∧
    (fullRes = FullResult.depLoopError →
      (getLayerCall iterativeTesting reconstruct nameOnStack layerInitialized
        res1 res2 fullRes).triedFullRecursion = true →
      ((getLayerCall iterativeTesting reconstruct nameOnStack layerInitialized
          res1 res2 fullRes).outcome = CallOutcome.returned ↔
        (layerInitialized = true ∧ iterativeTesting = true ∧ reconstruct = false))) := by
  cases iterativeTesting <;> cases reconstruct <;> cases nameOnStack <;>
    cases layerInitialized <;> cases res1 <;> cases res2 <;> cases fullRes <;>
    exact (by decide)

/-- C6 amended witness at a concrete input. -/
theorem C6_amended_witness :
    ((getLayerCall true false false true AttemptResult.failure AttemptResult.success
        FullResult.depLoopError).triedAllowUninitialized = true →
      (getLayerCall true false false true AttemptResult.failure AttemptResult.success
        FullResult.depLoopError).triedDefaultOptimistic = true ∧
        AttemptResult.failure = AttemptResult.failure) ∧
    ((getLayerCall true false false true AttemptResult.failure AttemptResult.success
        FullResult.depLoopError).triedDefaultOptimistic = (true && !false)) ∧
    ((getLayerCall true false false true AttemptResult.failure AttemptResult.success
        FullResult.depLoopError).triedFullRecursion =
      !(true && !false && decide (AttemptResult.failure = AttemptResult.success))) ∧
    (FullResult.depLoopError = FullResult.depLoopError →
      (getLayerCall true false false true AttemptResult.failure AttemptResult.success
        FullResult.depLoopError).triedFullRecursion = true →
      ((getLayerCall true false false true AttemptResult.failure AttemptResult.success
          FullResult.depLoopError).outcome = CallOutcome.returned ↔
        (true = true ∧ true = true ∧ false = false))) :=
  C6_amended true false false true AttemptResult.failure AttemptResult.success
    FullResult.depLoopError

/-! ### `_TemplateLayer.init` theorems -/

/-- C8 counterexample: `init` succeeds on an already-initialized node.
`c8once` initializes the fresh template `c8s0` (descriptor 7, class
"linear"); the resulting node has `is_initialized = true`; `c8twice` calls
`init` again on that node and does NOT fail -- it re-initializes in place
with the new descriptor 9 and class "copy" (the recorded dependency list is
untouched). -/
theorem C8_counterexample :
    c8once = Except.ok (TemplateState.mk false true ":template:linear" 7 (some "linear")
      none false none [] true ["x"]) ∧
    c8twice = Except.ok (TemplateState.mk false true ":template:copy" 9 (some "copy")
      none false none [] true ["x"]) := by
  constructor <;> rfl

/-- C8 (amended): `init` finalizes the node every time it is called: there is
no double-initialization check; a call on an already-initialized node
succeeds and overwrites the descriptor, layer class and config-derived fields
in place (fields `init` does not touch, such as the recorded dependencies,
persist), setting `is_initialized` last.  The only failing path is an invalid
`template_type`. -/
theorem C8_amended {α : Type} (searchFlag : Bool) (st : TemplateState α) (output : α)
    (layerClass : String) (classIsChoice : Bool) (beam : Option Nat)
    (templateType : String) (isOutputLayer : Option Bool)
    (collocate : Option (List String))
    (htt : templateType = "prev" ∨ templateType = "template")
    (hinit : st.isInitialized = true) :
    ∃ st', templateInit searchFlag st output layerClass classIsChoice beam templateType
        isOutputLayer collocate = Except.ok st' ∧
      st'.isInitialized = true ∧ st'.output = output ∧
      st'.layerClassType = some layerClass ∧ st'.deps = st.deps := by
  unfold templateInit
  rw [if_pos htt]
  exact ⟨_, rfl, rfl, rfl, rfl, rfl⟩

/-- C8 amended witness: the second `init` of the counterexample, through the
amended theorem. -/
theorem C8_amended_witness :
    ∃ st', templateInit false (TemplateState.mk false true ":template:linear" 7
        (some "linear") none false none [] true ["x"]) 9 "copy" false none "template"
        none none = Except.ok st' ∧
      st'.isInitialized = true ∧ st'.output = 9 ∧
      st'.layerClassType = some "copy" ∧ st'.deps = ["x"] :=
  C8_amended false (TemplateState.mk false true ":template:linear" 7 (some "linear")
    none false none [] true ["x"]) 9 "copy" false none "template" none none
    (Or.inr rfl) rfl

/-! ### Accumulator theorems -/

theorem range_filter_eq_nil {i n : Nat} (h : n ≤ i) :
    (List.range n).filter (fun j => j = i) = [] := by
  rw [List.filter_eq_nil]
  intro a ha
  have := List.mem_range.1 ha
  simp only [decide_eq_true_eq]
  omega

theorem range_filter_eq_single {i n : Nat} (h : i < n) :
    (List.range n).filter (fun j => j = i) = [i] := by
  induction n with
  | zero => omega
  | succ m ih =>
    rw [List.range_succ, List.filter_append]
    by_cases him : i < m
    · rw [ih him]
      have hm : List.filter (fun j => decide (j = i)) [m] = [] := by
        have hne : decide (m = i) = false := by
          simp only [decide_eq_false_iff_not]
          omega
        simp [List.filter, hne]
      rw [hm, List.append_nil]
    · have hieq : i = m := by omega
      subst hieq
      rw [range_filter_eq_nil (Nat.le_refl i)]
      simp [List.filter]

/-- C10: accumulator skipping is all-or-nothing per output: whether the
getter produces a value is fixed once, when the loop body is traced
(`write_to_tensor_array` runs exactly once per output and may not be called
twice); thereafter either the buffer is written exactly once at every
executed step index, or it is never written during the whole run and the
final accumulated buffer is reported as absent (`None`).  No output can
produce a value at some steps and skip others within one loop run. -/
theorem C10_accumulator_all_or_nothing {α : Type} (out : OutputToAccumulate α)
    (steps : Nat) (ta0 : TensorArray α)
    (hfresh : out.get_returned_none = none) (hta0 : ta0.writes = []) :
    ∃ out' writeOp, writeToTensorArray out = Except.ok (out', writeOp) ∧
      (∃ msg, writeToTensorArray out' = Except.error msg) ∧
      ((∃ f, out.get = some f ∧
          (∀ i, i < steps →
            (((runAccum writeOp steps ta0).writes.filter (fun w => w.1 = i)).length = 1 ∧
              (i, f i) ∈ (runAccum writeOp steps ta0).writes)) ∧
          getFinalTensorArray out' (runAccum writeOp steps ta0) =
            Except.ok (some (runAccum writeOp steps ta0))) ∨
       (out.get = none ∧ (runAccum writeOp steps ta0).writes = [] ∧
          getFinalTensorArray out' (runAccum writeOp steps ta0) = Except.ok none)) := by
  cases hget : out.get with
  | none =>
    refine ⟨{ out with get_returned_none := some true }, none, ?_, ⟨_, rfl⟩, ?_⟩
    · unfold writeToTensorArray
      rw [hfresh, hget]
    · exact Or.inr ⟨rfl, by simp [runAccum, hta0], rfl⟩
  | some f =>
    refine ⟨{ out with get_returned_none := some false }, some f, ?_, ⟨_, rfl⟩, ?_⟩
    · unfold writeToTensorArray
      rw [hfresh, hget]
    · refine Or.inl ⟨f, rfl, ?_, rfl⟩
      intro i hi
      have hw : (runAccum (some f) steps ta0).writes =
          (List.range steps).map (fun j => (j, f j)) := by
        simp [runAccum, hta0]
      constructor
      · rw [hw, List.filter_map]
        have hcomp : ((fun w : Nat × α => decide (w.1 = i)) ∘ (fun j => (j, f j))) =
            (fun j => decide (j = i)) := rfl
        rw [hcomp, range_filter_eq_single hi]
        rfl
      · rw [hw]
        exact List.mem_map_of_mem _ (List.mem_range.2 hi)

/-- C10 witness at a concrete output (value produced; three steps). -/
theorem C10_accumulator_all_or_nothing_witness :
    ∃ out' writeOp, writeToTensorArray c10out = Except.ok (out', writeOp) ∧
      (∃ msg, writeToTensorArray out' = Except.error msg) ∧
      ((∃ f, c10out.get = some f ∧
          (∀ i, i < 3 →
            (((runAccum writeOp 3 c10ta).writes.filter (fun w => w.1 = i)).length = 1 ∧
              (i, f i) ∈ (runAccum writeOp 3 c10ta).writes)) ∧
          getFinalTensorArray out' (runAccum writeOp 3 c10ta) =
            Except.ok (some (runAccum writeOp 3 c10ta))) ∨
       (c10out.get = none ∧ (runAccum writeOp 3 c10ta).writes = [] ∧
          getFinalTensorArray out' (runAccum writeOp 3 c10ta) = Except.ok none)) :=
  C10_accumulator_all_or_nothing c10out 3 c10ta rfl rfl

/-! ### Beam-search source combination theorems -/

theorem foldl_max_mem (p : Nat × Int) (l : List (Nat × Int)) :
    l.foldl (fun acc q => if acc.2 < q.2 then q else acc) p = p ∨
    l.foldl (fun acc q => if acc.2 < q.2 then q else acc) p ∈ l := by
  induction l generalizing p with
  | nil => exact Or.inl rfl
  | cons x xs ih =>
    simp only [List.foldl_cons]
    rcases ih (if p.2 < x.2 then x else p) with h | h
    · rw [h]
      by_cases hc : p.2 < x.2
      · rw [if_pos hc]
        exact Or.inr (List.mem_cons_self x xs)
      · rw [if_neg hc]
        exact Or.inl rfl
    · exact Or.inr (List.mem_cons_of_mem x h)

theorem selectTopGo_length :
    ∀ (fuel : Nat) (pairs : List (Nat × Int)),
      (selectTopGo fuel pairs).length = min fuel pairs.length := by
  intro fuel
  induction fuel with
  | zero => intro pairs; simp [selectTopGo]
  | succ n ih =>
    intro pairs
    cases pairs with
    | nil => simp [selectTopGo]
    | cons p rest =>
      simp only [selectTopGo, List.length_cons]
      rw [ih]
      have hbest : (p :: rest).foldl (fun acc q => if acc.2 < q.2 then q else acc) p
          ∈ p :: rest := by
        rcases foldl_max_mem p (p :: rest) with h | h
        · rw [h]
          exact List.mem_cons_self p rest
        · exact h
      have herase : ((p :: rest).eraseP
            (fun q => q == (p :: rest).foldl
              (fun acc q => if acc.2 < q.2 then q else acc) p)).length + 1 =
          (p :: rest).length :=
        List.length_eraseP_add_one hbest (by simp)
      rw [List.length_cons] at herase
      omega

theorem topK_length (scores : List Int) (k : Nat) (hk : k ≤ scores.length) :
    (topK scores k).1.length = k ∧ (topK scores k).2.length = k := by
  unfold topK
  have hz : ((List.range scores.length).zip scores).length = scores.length := by
    simp [List.length_zip]
  constructor <;>
  · simp only [List.length_map, List.length_take, selectTopGo_length, hz]
    omega

theorem combineScores2_length (ps1 ps2 : List Int) :
    (combineScores2 ps1 ps2).length = ps1.length * ps2.length := by
  unfold combineScores2
  induction ps1 with
  | nil => simp
  | cons a l ih =>
    simp only [List.flatMap_cons, List.length_append, List.length_map, ih,
      List.length_cons]
    ring

theorem combineScores2_get? (ps1 ps2 : List Int) :
    ∀ (c : Nat), c < ps1.length * ps2.length →
      (combineScores2 ps1 ps2).get? c =
        (ps1.get? (c / ps2.length)).bind
          (fun a => (ps2.get? (c % ps2.length)).map (fun b => a + b)) := by
  induction ps1 with
  | nil => intro c hc; simp at hc
  | cons a l ih =>
    intro c hc
    have hn : 0 < ps2.length := by
      rcases Nat.eq_zero_or_pos ps2.length with h0 | h0
      · rw [h0, Nat.mul_zero] at hc
        exact absurd hc (Nat.not_lt_zero c)
      · exact h0
    have hun : combineScores2 (a :: l) ps2 =
        ps2.map (fun b => a + b) ++ combineScores2 l ps2 := by
      simp [combineScores2]
    rw [hun]
    by_cases hcn : c < ps2.length
    · rw [List.get?_append (by simpa using hcn)]
      rw [List.get?_map]
      rw [Nat.div_eq_of_lt hcn, Nat.mod_eq_of_lt hcn]
      rfl
    · push_neg at hcn
      rw [List.get?_append_right (by simpa using hcn)]
      have hlen : (ps2.map (fun b => a + b)).length = ps2.length := List.length_map _ _
      rw [hlen]
      have hcs : c - ps2.length < l.length * ps2.length := by
        rw [List.length_cons] at hc
        have : (l.length + 1) * ps2.length = l.length * ps2.length + ps2.length := by ring
        omega
      rw [ih (c - ps2.length) hcs]
      have hdiv : c / ps2.length = (c - ps2.length) / ps2.length + 1 :=
        Nat.div_eq_sub_div hn hcn
      have hmod : c % ps2.length = (c - ps2.length) % ps2.length :=
        (Nat.mod_eq_sub_mod hcn)
      rw [hdiv, hmod, List.get?_cons_succ]

/-- C9: for a choice over two sources with per-source pruning beam sizes `b1`
and `b2`, the combined score row considered before the joint top-k has
exactly `b1 * b2` entries per incoming hypothesis (and the reported
`combined_scores_dim` is `b1 * b2`); each flat combination index `c`
corresponds to the score sum of pruned entry `c / b2` of source 0 and pruned
entry `c % b2` of source 1, and `_get_combined_labels` recovers the output
labels by exactly that unravelling (last source innermost), indexing each
source's pruned label row after selecting the source beam. -/
theorem C9_prune_and_combine (scores1 scores2 : List Int) (b1 b2 : Nat)
    (h1 : b1 ≤ scores1.length) (h2 : b2 ≤ scores2.length) :
    (pruneAndCombineSources2 scores1 scores2 b1 b2).1.length = b1 * b2 ∧
    (pruneAndCombineSources2 scores1 scores2 b1 b2).2.1 = b1 * b2 ∧
    (pruneAndCombineSources2 scores1 scores2 b1 b2).2.2.1.length = b1 ∧
    (pruneAndCombineSources2 scores1 scores2 b1 b2).2.2.2.length = b2 ∧
    (∀ c, c < b1 * b2 →
      (pruneAndCombineSources2 scores1 scores2 b1 b2).1.get? c =
        ((topK scores1 b1).1.get? (c / b2)).bind
          (fun a => ((topK scores2 b2).1.get? (c % b2)).map (fun b => a + b))) ∧
    (∀ c srcBeam rows1 rows2, c < b1 * b2 →
      getCombinedLabels2 c srcBeam rows1 rows2 b1 b2 =
        ((rows1.getD srcBeam []).get? (c / b2),
         (rows2.getD srcBeam []).get? (c % b2))) := by
  have ht1 := topK_length scores1 b1 h1
  have ht2 := topK_length scores2 b2 h2
  have hflat : (pruneAndCombineSources2 scores1 scores2 b1 b2).1 =
      combineScores2 (topK scores1 b1).1 (topK scores2 b2).1 := rfl
  refine ⟨?_, ?_, ht1.2, ht2.2, ?_, ?_⟩
  · rw [hflat, combineScores2_length, ht1.1, ht2.1]
  · show 1 * b1 * b2 = b1 * b2
    ring
  · intro c hc
    rw [hflat]
    have := combineScores2_get? (topK scores1 b1).1 (topK scores2 b2).1 c
      (by rw [ht1.1, ht2.1]; exact hc)
    rw [ht2.1] at this
    exact this
  · intro c srcBeam rows1 rows2 hc
    have hb2 : 0 < b2 := by
      rcases Nat.eq_zero_or_pos b2 with h0 | h0
      · rw [h0, Nat.mul_zero] at hc
        exact absurd hc (Nat.not_lt_zero c)
      · exact h0
    have hdivlt : c / b2 < b1 := Nat.div_lt_of_lt_mul (by rw [Nat.mul_comm]; exact hc)
    unfold getCombinedLabels2
    rw [Nat.mod_eq_of_lt hdivlt]

/-- C9 witness: two sources of sizes 2 and 3 pruned with beams 2 and 3 give
exactly 2*3 = 6 combinations. -/
theorem C9_prune_and_combine_witness :
    (2 ≤ ([5, 1] : List Int).length ∧ 3 ≤ ([3, 7, 2] : List Int).length) ∧
    (pruneAndCombineSources2 [5, 1] [3, 7, 2] 2 3).1.length = 2 * 3 ∧
    (pruneAndCombineSources2 [5, 1] [3, 7, 2] 2 3).2.1 = 2 * 3 :=
  ⟨⟨by decide, by decide⟩,
    (C9_prune_and_combine [5, 1] [3, 7, 2] 2 3 (by decide) (by decide)).1,
    (C9_prune_and_combine [5, 1] [3, 7, 2] 2 3 (by decide) (by decide)).2.1⟩

/-- C2 witness: a concrete dynamic loop with cap 3 and one hypothesis that
signals end from step 1 on. -/
theorem C2_dynamic_termination_witness :
    (runLoop 3 (fun i => [decide (1 ≤ i)]) [false]).1 ≤ 3 ∧
    (∀ j < (runLoop 3 (fun i => [decide (1 ≤ i)]) [false]).1,
      loopCond none (some 3)
        (some (flagsAt (fun i => [decide (1 ≤ i)]) [false] j)) j = Except.ok true) ∧
    ((runLoop 3 (fun i => [decide (1 ≤ i)]) [false]).1 = 3 ∨
      ((flagsAt (fun i => [decide (1 ≤ i)]) [false]
        (runLoop 3 (fun i => [decide (1 ≤ i)]) [false]).1).any (fun e => !e)) = false) ∧
    loopCond none (some 3)
      (some (flagsAt (fun i => [decide (1 ≤ i)]) [false]
        (runLoop 3 (fun i => [decide (1 ≤ i)]) [false]).1))
      (runLoop 3 (fun i => [decide (1 ≤ i)]) [false]).1 = Except.ok false ∧
    (runLoop 3 (fun i => [decide (1 ≤ i)]) [false]).2 =
      flagsAt (fun i => [decide (1 ≤ i)]) [false]
        (runLoop 3 (fun i => [decide (1 ≤ i)]) [false]).1 :=
  C2_dynamic_termination 3 (fun i => [decide (1 ≤ i)]) [false]

end Rec
